import Mathlib

/-!
Verification of a small RISC-V teaching kernel (riscv-os).

Shallow embedding of the kernel's core algorithms: the physical frame
allocator (kalloc.c), the Sv39 page-table helpers and COW machinery (vm.c),
the user-trap classifier (trap.c), the buffer-cache reset (bio.c), the
write-ahead redo log (log.c), the inode read path, directory operations and
path resolution (fs.c), and the unlink system call (sysfile.c).

Machine integers are modelled as `Nat`/`Int`, with explicit `% 2^32`
where 32-bit wraparound matters.  A kernel `panic` is modelled as `none`
of an `Option`-valued function.  Each embedded function mirrors the
control flow of the corresponding C function.
-/

namespace RiscvOS

/-! ### Global constants (memlayout.h, riscv.h, fs.h, log.h) -/

def PGSIZE : Nat := 4096
def KERNBASE : Nat := 0x80000000
def PHYSTOP : Nat := KERNBASE + 128 * 1024 * 1024
def NPAGES : Nat := (PHYSTOP - KERNBASE) / PGSIZE
def MAXVA : Nat := 2 ^ 38

def PTE_V : Nat := 1
def PTE_R : Nat := 2
def PTE_W : Nat := 4
def PTE_X : Nat := 8
def PTE_U : Nat := 16
def PTE_COW : Nat := 256

def BLOCK_SIZE : Nat := 4096
def LOG_START : Nat := 2
def LOG_SIZE : Nat := 30
def MAX_OP_BLOCKS : Nat := 10
def DIRSIZ : Nat := 14
def MAXPATH : Nat := 128
def MAX_SYMLINK_DEPTH : Nat := 8

/-- inode types (fs.h): 1=T_DIR, 2=T_FILE, 3=T_DEV, 4=T_SYMLINK. -/
def T_DIR : Nat := 1
def T_FILE : Nat := 2
def T_DEV : Nat := 3
def T_SYMLINK : Nat := 4

/-! ### Frame allocator (kalloc.c / part_015)

State of the physical-memory manager: the allocation bitmap, the per-frame
reference counts and the free-page counter.  Frames are indexed by
`page_index(pa) = (pa - KERNBASE) / PGSIZE`. -/

structure PmmSt where
  bitmap : Nat → Bool
  rc : Nat → Int
  freeCount : Int

/-- Pointwise update of a `Nat → Bool` map. -/
def updB (f : Nat → Bool) (i : Nat) (v : Bool) : Nat → Bool :=
  fun j => if j = i then v else f j

/-- Pointwise update of a `Nat → Int` map. -/
def updI (f : Nat → Int) (i : Nat) (v : Int) : Nat → Int :=
  fun j => if j = i then v else f j

/-- `page_index`: frame index of a physical address. -/
def page_index (pa : Nat) : Nat := (pa - KERNBASE) / PGSIZE

/-- Validity check shared by `free_page`, `page_incref`, `page_refcount`:
page-aligned and inside `[KERNBASE, PHYSTOP)`. -/
def validPa (pa : Nat) : Prop := pa % PGSIZE = 0 ∧ KERNBASE ≤ pa ∧ pa < PHYSTOP

instance : DecidablePred validPa := fun pa => by
  unfold validPa; infer_instance

/-- `find_first_free_page`: first frame index in `[i, i+fuel)` whose bitmap
bit is clear (the C code scans `[0, NPAGES)` word by word; the result is the
first clear bit). -/
def findFreeFrom (bm : Nat → Bool) : Nat → Nat → Option Nat
  | _, 0 => none
  | i, fuel + 1 => if bm i then findFreeFrom bm (i + 1) fuel else some i

def find_first_free_page (bm : Nat → Bool) : Option Nat :=
  findFreeFrom bm 0 NPAGES

/-- `find_contiguous_free_pages`: the C loop carries `(start, count)` over
`i = 0 .. NPAGES-1`; a set bit resets `count`, a clear bit extends the run,
and the scan returns `start` once `count` reaches `n`. -/
def findContigAux (bm : Nat → Bool) (n : Nat) : Nat → Nat → Nat → Option Nat
  | i, start, count =>
    if _h : i < NPAGES then
      if bm i then
        findContigAux bm n (i + 1) start 0
      else
        let start2 := if count = 0 then i else start
        if count + 1 = n then some start2
        else findContigAux bm n (i + 1) start2 (count + 1)
    else none
termination_by i _ _ => NPAGES - i
decreasing_by all_goals omega

def find_contiguous_free_pages (bm : Nat → Bool) (n : Nat) : Option Nat :=
  findContigAux bm n 0 0 0

/-- `pmm_init`: the kernel image and the bitmap pages (an arbitrary reserved
set `K` of frame indices) are marked allocated with refcount 1; every other
frame is free with refcount 0 (the `refcount` array is zero-initialised
static storage). -/
def pmm_init (K : Nat → Bool) : PmmSt :=
  { bitmap := K
    rc := fun f => if K f then 1 else 0
    freeCount := ((List.range NPAGES).filter (fun i => !K i)).length }

/-- `alloc_page`: first-fit allocation; returns the address of the zeroed
frame, or 0 when memory is exhausted.  Never panics. -/
def alloc_page (s : PmmSt) : PmmSt × Nat :=
  if s.freeCount ≤ 0 then (s, 0)
  else
    match find_first_free_page s.bitmap with
    | none => (s, 0)
    | some idx =>
      ({ bitmap := updB s.bitmap idx true
         rc := updI s.rc idx 1
         freeCount := s.freeCount - 1 },
       KERNBASE + idx * PGSIZE)

/-- `free_page`: decrement the refcount, freeing the frame when it reaches 0.
Panics (`none`) on invalid address, double free, or non-positive refcount. -/
def free_page (s : PmmSt) (pa : Nat) : Option PmmSt :=
  if ¬ validPa pa then none
  else
    let idx := page_index pa
    if s.bitmap idx = false then none
    else if s.rc idx ≤ 0 then none
    else
      let rc2 := s.rc idx - 1
      if 0 < rc2 then some { s with rc := updI s.rc idx rc2 }
      else some { bitmap := updB s.bitmap idx false
                  rc := updI s.rc idx rc2
                  freeCount := s.freeCount + 1 }

/-- `page_incref`: increment the refcount of an allocated frame; panics on an
invalid address or a frame whose bitmap bit is clear. -/
def page_incref (s : PmmSt) (pa : Nat) : Option PmmSt :=
  if ¬ validPa pa then none
  else
    let idx := page_index pa
    if s.bitmap idx = false then none
    else some { s with rc := updI s.rc idx (s.rc idx + 1) }

/-- Inner loop of `alloc_pages`: mark `n` frames starting at `start`
allocated with refcount 1; panics if any is already allocated. -/
def allocRange (s : PmmSt) (start : Nat) : Nat → Option PmmSt
  | 0 => some s
  | k + 1 =>
    if s.bitmap start then none
    else
      allocRange
        { s with bitmap := updB s.bitmap start true, rc := updI s.rc start 1 }
        (start + 1) k

/-- `alloc_pages n`: contiguous allocation of `n` frames. -/
def alloc_pages (s : PmmSt) (n : Int) : Option (PmmSt × Nat) :=
  if n ≤ 0 then some (s, 0)
  else if n = 1 then some (alloc_page s)
  else if s.freeCount < n then some (s, 0)
  else
    match find_contiguous_free_pages s.bitmap n.toNat with
    | none => some (s, 0)
    | some start =>
      match allocRange s start n.toNat with
      | none => none
      | some s2 =>
        some ({ s2 with freeCount := s2.freeCount - n },
              KERNBASE + start * PGSIZE)

/-- `free_pages`: free `n` consecutive frames one by one. -/
def free_pages (s : PmmSt) (pa : Nat) : Nat → Option PmmSt
  | 0 => some s
  | k + 1 =>
    match free_page s pa with
    | none => none
    | some s2 => free_pages s2 (pa + PGSIZE) k

/-- One non-panicking allocator operation (the panicking branches halt the
kernel, so the successor state exists only when the preconditions hold). -/
inductive PmmStep : PmmSt → PmmSt → Prop
  | alloc (s : PmmSt) : PmmStep s (alloc_page s).1
  | allocN (s : PmmSt) (n : Int) (s2 : PmmSt) (r : Nat)
      (h : alloc_pages s n = some (s2, r)) : PmmStep s s2
  | free (s : PmmSt) (pa : Nat) (s2 : PmmSt)
      (h : free_page s pa = some s2) : PmmStep s s2
  | freeN (s : PmmSt) (pa n : Nat) (s2 : PmmSt)
      (h : free_pages s pa n = some s2) : PmmStep s s2
  | incref (s : PmmSt) (pa : Nat) (s2 : PmmSt)
      (h : page_incref s pa = some s2) : PmmStep s s2

/-- Allocator states reachable from `pmm_init K`. -/
def PmmReachable (K : Nat → Bool) (s : PmmSt) : Prop :=
  Relation.ReflTransGen PmmStep (pmm_init K) s

/-- The inductive allocator invariant: refcounts are non-negative and a
frame's refcount is zero exactly when its bitmap bit is clear. -/
def PmmInv (s : PmmSt) : Prop :=
  ∀ f, 0 ≤ s.rc f ∧ (s.rc f = 0 ↔ s.bitmap f = false)

theorem findFreeFrom_free {bm : Nat → Bool} :
    ∀ i fuel idx, findFreeFrom bm i fuel = some idx → bm idx = false := by
  intro i fuel
  induction fuel generalizing i with
  | zero => intro idx h; simp [findFreeFrom] at h
  | succ k ih =>
    intro idx h
    unfold findFreeFrom at h
    by_cases hb : bm i
    · simp [hb] at h; exact ih _ _ h
    · simp [hb] at h; subst h; simpa using hb

theorem find_first_free_page_free {bm : Nat → Bool} {idx : Nat}
    (h : find_first_free_page bm = some idx) : bm idx = false :=
  findFreeFrom_free _ _ _ h

theorem pmmInv_init (K : Nat → Bool) : PmmInv (pmm_init K) := by
  intro f
  simp only [pmm_init]
  by_cases h : K f <;> simp [h]

theorem pmmInv_alloc_page {s : PmmSt} (hs : PmmInv s) :
    PmmInv (alloc_page s).1 := by
  unfold alloc_page
  by_cases hf : s.freeCount ≤ 0
  · simpa [hf] using hs
  · simp only [hf, if_false]
    cases hidx : find_first_free_page s.bitmap with
    | none => simpa using hs
    | some idx =>
      intro f
      by_cases hfi : f = idx
      · subst hfi; simp [updB, updI]
      · simpa [updB, updI, hfi] using hs f

theorem pmmInv_free_page {s s2 : PmmSt} {pa : Nat} (hs : PmmInv s)
    (h : free_page s pa = some s2) : PmmInv s2 := by
  simp only [free_page] at h
  split at h
  · exact Option.noConfusion h
  split at h
  · exact Option.noConfusion h
  next hb =>
  split at h
  · exact Option.noConfusion h
  next hrc =>
  split at h
  all_goals injection h with h
  all_goals subst h
  all_goals intro f
  all_goals by_cases hfi : f = page_index pa
  · subst hfi
    refine ⟨by simp [updI]; omega, ?_⟩
    have hne : ¬(s.rc (page_index pa) - 1 = 0) := by omega
    simp [updI, hne, hb]
  · simpa [updI, hfi] using hs f
  · subst hfi
    refine ⟨by simp [updI]; omega, ?_⟩
    have hz : s.rc (page_index pa) - 1 = 0 := by omega
    simp [updI, updB, hz]
  · simpa [updI, updB, hfi] using hs f

theorem pmmInv_page_incref {s s2 : PmmSt} {pa : Nat} (hs : PmmInv s)
    (h : page_incref s pa = some s2) : PmmInv s2 := by
  simp only [page_incref] at h
  split at h
  · exact Option.noConfusion h
  split at h
  · exact Option.noConfusion h
  next hb =>
  injection h with h
  subst h
  intro f
  by_cases hfi : f = page_index pa
  · subst hfi
    have h1 := (hs (page_index pa)).1
    refine ⟨by simp [updI]; omega, ?_⟩
    have hne : ¬(s.rc (page_index pa) + 1 = 0) := by omega
    simp [updI, hne, hb]
  · simpa [updI, hfi] using hs f

theorem pmmInv_allocRange :
    ∀ (k : Nat) (start : Nat) (s s2 : PmmSt), PmmInv s →
      allocRange s start k = some s2 → PmmInv s2 := by
  intro k
  induction k with
  | zero =>
    intro start s s2 hs h
    simp only [allocRange, Option.some.injEq] at h
    subst h; exact hs
  | succ k ih =>
    intro start s s2 hs h
    unfold allocRange at h
    by_cases hb : s.bitmap start
    · simp [hb] at h
    · simp only [hb, if_false] at h
      refine ih _ _ _ ?_ h
      intro f
      by_cases hfi : f = start
      · subst hfi; simp [updB, updI]
      · simpa [updB, updI, hfi] using hs f

theorem pmmInv_alloc_pages {s s2 : PmmSt} {n : Int} {r : Nat} (hs : PmmInv s)
    (h : alloc_pages s n = some (s2, r)) : PmmInv s2 := by
  simp only [alloc_pages] at h
  split at h
  · injection h with h
    injection h with h1 h2
    exact h1 ▸ hs
  split at h
  · injection h with h
    have hfst : (alloc_page s).1 = s2 := by rw [h]
    exact hfst ▸ pmmInv_alloc_page hs
  split at h
  · injection h with h
    injection h with h1 h2
    exact h1 ▸ hs
  split at h
  · injection h with h
    injection h with h1 h2
    exact h1 ▸ hs
  next start hfind =>
  split at h
  · exact Option.noConfusion h
  next s3 hrange =>
  injection h with h
  injection h with h1 h2
  have hinv3 := pmmInv_allocRange _ _ _ _ hs hrange
  rw [← h1]
  intro f; exact hinv3 f

theorem pmmInv_free_pages :
    ∀ (n : Nat) (pa : Nat) (s s2 : PmmSt), PmmInv s →
      free_pages s pa n = some s2 → PmmInv s2 := by
  intro n
  induction n with
  | zero =>
    intro pa s s2 hs h
    simp only [free_pages, Option.some.injEq] at h
    subst h; exact hs
  | succ k ih =>
    intro pa s s2 hs h
    unfold free_pages at h
    cases hfp : free_page s pa with
    | none => rw [hfp] at h; simp at h
    | some s3 =>
      rw [hfp] at h
      exact ih _ _ _ (pmmInv_free_page hs hfp) h

theorem pmmInv_step {s s2 : PmmSt} (hs : PmmInv s) (h : PmmStep s s2) :
    PmmInv s2 := by
  cases h with
  | alloc => exact pmmInv_alloc_page hs
  | allocN n s2 r hop => exact pmmInv_alloc_pages hs hop
  | free pa s2 hop => exact pmmInv_free_page hs hop
  | freeN pa n s2 hop => exact pmmInv_free_pages _ _ _ _ hs hop
  | incref pa s2 hop => exact pmmInv_page_incref hs hop

theorem pmmInv_reachable {K : Nat → Bool} {s : PmmSt}
    (h : PmmReachable K s) : PmmInv s := by
  induction h with
  | refl => exact pmmInv_init K
  | tail _ hstep ih => exact pmmInv_step ih hstep

/-! ### Buffer cache (bio.c / part_011) -/

def NBUF : Nat := 32
def B_VALID : Nat := 2
def B_DIRTY : Nat := 4

/-- One cache entry of `bcache.buf[NBUF]` (buf.h): flags, identity, refcount,
hash-chain link and LRU links (links are modelled as opaque values; this is
enough to observe that `clear_cache` does not touch them). -/
structure Buf where
  flags : Nat
  dev : Nat
  blockno : Nat
  refcnt : Nat
  hashNext : Option Nat
  lruPrev : Nat
  lruNext : Nat

/-- The buffer-cache state: the 32 entries, the hash buckets and the LRU
sentinel links. -/
structure BcacheSt where
  bufs : Fin NBUF → Buf
  hash : Nat → Option Nat
  headPrev : Nat
  headNext : Nat

/-- Body of the `clear_cache` loop for one entry:
`b->flags &= ~(B_VALID | B_DIRTY); b->refcnt = 0;` (`~6` in a 32-bit int is
`0xFFFFFFF9`). -/
def clearBuf (b : Buf) : Buf :=
  { b with flags := b.flags &&& 0xFFFFFFF9, refcnt := 0 }

/-- `clear_cache`: reset flags and refcount of all `NBUF` entries; the hash
table and the LRU list are not touched. -/
def clear_cache (s : BcacheSt) : BcacheSt :=
  { s with bufs := fun i => clearBuf (s.bufs i) }

/-! ### `readi` (fs.c / part_012)

The inode's content is abstracted as a byte-per-offset function (the
composition of `bmap` and the block reads); the block-by-block loop of the
C code is kept. -/

def U32 : Nat := 2 ^ 32

/-- An in-memory inode as `readi` sees it: `size` (a `uint32`) and the file
content, one byte per offset. -/
structure RInode where
  size : Nat
  data : Nat → Nat

/-- The `while(tot < n)` loop of `readi` (kernel-destination branch): each
iteration copies `m = min(n - tot, BLOCK_SIZE - (off + tot) % BLOCK_SIZE)`
bytes out of the buffer for block `(off + tot) / BLOCK_SIZE`. -/
def readiLoop (data : Nat → Nat) (off n tot : Nat) (acc : List Nat) :
    List Nat :=
  if _h : tot < n then
    let block_off := (off + tot) % BLOCK_SIZE
    let m := min (n - tot) (BLOCK_SIZE - block_off)
    readiLoop data off n (tot + m)
      (acc ++ (List.range m).map (fun j => data (off + tot + j)))
  else acc
termination_by n - tot
decreasing_by
  have hbo : (off + tot) % BLOCK_SIZE < BLOCK_SIZE :=
    Nat.mod_lt _ (by norm_num [BLOCK_SIZE])
  simp only [BLOCK_SIZE] at *
  omega

/-- `readi(ip, 0, dst, off, n)`: fails (−1) when `off > ip->size` or the
`uint32` sum `off + n` wraps; otherwise clamps `n` to `ip->size − off` and
runs the copy loop, returning the bytes placed in the kernel buffer. -/
def readi (ip : RInode) (off n : Nat) : Option (List Nat) :=
  if off > ip.size ∨ (off + n) % U32 < off then none
  else
    let n2 := if off + n > ip.size then ip.size - off else n
    some (readiLoop ip.data off n2 0 [])

theorem readiLoop_spec (data : Nat → Nat) (off n : Nat) :
    ∀ k tot acc, n - tot = k →
      readiLoop data off n tot acc =
        acc ++ (List.range (n - tot)).map (fun j => data (off + tot + j)) := by
  intro k
  induction k using Nat.strong_induction_on with
  | _ k ih =>
    intro tot acc hk
    unfold readiLoop
    by_cases h : tot < n
    · simp only [dif_pos h]
      set m := min (n - tot) (BLOCK_SIZE - (off + tot) % BLOCK_SIZE) with hm
      have hbo : (off + tot) % BLOCK_SIZE < BLOCK_SIZE :=
        Nat.mod_lt _ (by norm_num [BLOCK_SIZE])
      have hm1 : 1 ≤ m := by simp only [hm]; omega
      have hmle : m ≤ n - tot := by simp only [hm]; omega
      have hrec := ih (n - (tot + m)) (by omega) (tot + m)
        (acc ++ (List.range m).map (fun j => data (off + tot + j))) rfl
      rw [hrec, List.append_assoc]
      congr 1
      have hsplit : n - tot = m + (n - (tot + m)) := by omega
      rw [hsplit, List.range_add, List.map_append, List.map_map]
      congr 1
      congr 1
      funext x
      simp only [Function.comp_apply]
      congr 1
      omega
    · simp only [dif_neg h]
      have h0 : n - tot = 0 := by omega
      simp [h0]

/-! ### Journaled log (log.c / part_011)

On-disk state at block granularity: the log-header block (block
`LOG_START`, kept in parsed form) and every other block as an abstract
content value.  A transaction is the list of `(blockno, new content)`
pairs held in the pinned cache buffers when `end_transaction` triggers
`commit_transaction` (duplicates were coalesced by `log_block_write`).
`bwrite` is synchronous, so commit-time writes reach the disk in program
order and a crash keeps every completed write. -/

structure LogHdr where
  n : Nat
  blocks : Nat → Nat

structure Disk where
  hdr : LogHdr
  blk : Nat → Nat

/-- Pointwise update of a block map. -/
def updN (f : Nat → Nat) (i v : Nat) : Nat → Nat :=
  fun j => if j = i then v else f j

/-- A log transaction: logged block numbers with their new contents. -/
abbrev Txn := List (Nat × Nat)

/-- In-order application of a transaction's writes to the data region
(the effect the committed transaction must have). -/
def writeList (blk : Nat → Nat) : List (Nat × Nat) → (Nat → Nat)
  | [] => blk
  | (b, v) :: rest => writeList (updN blk b v) rest

/-- `write_log_blocks`: copy each logged block's current (cache) content
into log block `LOG_START + i + 1`, in index order. -/
def write_log_blocks (blk : Nat → Nat) : Nat → List (Nat × Nat) → (Nat → Nat)
  | _, [] => blk
  | i, (_, v) :: rest => write_log_blocks (updN blk (LOG_START + i + 1) v) (i + 1) rest

/-- `write_log_header` with in-memory header `(n, hb)`: store `n` and the
first `n` slots into the header block, preserving the remaining slots. -/
def write_log_header (d : Disk) (n : Nat) (hb : Nat → Nat) : Disk :=
  { d with hdr := { n := n, blocks := fun j => if j < n then hb j else d.hdr.blocks j } }

/-- The loop of `install_transaction`: for `i = i0, i0+1, …` (`k` steps)
copy log block `LOG_START + i + 1` onto block `hb i`. -/
def installFrom (blk : Nat → Nat) (hb : Nat → Nat) : Nat → Nat → (Nat → Nat)
  | _, 0 => blk
  | i, k + 1 =>
    installFrom (updN blk (hb i) (blk (LOG_START + i + 1))) hb (i + 1) k

/-- `commit_transaction` under crash hook `crash_stage = stage`:
write the log blocks; stop if `stage = 2`; write the header (commit
point); stop if `stage = 1`; install and clear the header. -/
def commit_transaction (d : Disk) (t : Txn) (stage : Nat) : Disk :=
  if t.length = 0 then d
  else
    let d1 : Disk := { d with blk := write_log_blocks d.blk 0 t }
    if stage = 2 then d1
    else
      let hb : Nat → Nat := fun i => ((t.get? i).map Prod.fst).getD 0
      let d2 := write_log_header d1 t.length hb
      if stage = 1 then d2
      else
        let d3 : Disk := { d2 with blk := installFrom d2.blk hb 0 t.length }
        write_log_header d3 0 hb

/-- `recover_log`: read the on-disk header (panicking if `n > LOG_SIZE`),
replay the install loop from the log region, then clear the header. -/
def recover_log (d : Disk) : Option Disk :=
  if d.hdr.n > LOG_SIZE then none
  else
    let d1 : Disk := { d with blk := installFrom d.blk d.hdr.blocks 0 d.hdr.n }
    some (write_log_header d1 0 d.hdr.blocks)

/-- A committable transaction: it fits the log's data blocks, every target
block lies beyond the log region, and the targets are pairwise distinct
(`log_block_write` coalesces duplicates). -/
def TxnValid (t : Txn) : Prop :=
  t.length ≤ LOG_SIZE - 1 ∧
  (∀ p ∈ t, LOG_START + LOG_SIZE ≤ p.1) ∧
  (t.map Prod.fst).Nodup

/-- Run a list of transactions to completion (`crash_stage = 0`). -/
def runCommits (d : Disk) : List Txn → Disk
  | [] => d
  | t :: ts => runCommits (commit_transaction d t 0) ts

/-- The intended cumulative effect: apply every transaction in order. -/
def applyTxns (blk : Nat → Nat) : List Txn → (Nat → Nat)
  | [] => blk
  | t :: ts => applyTxns (writeList blk t) ts

theorem writeList_notin {b : Nat} :
    ∀ (l : List (Nat × Nat)) (blk : Nat → Nat), b ∉ l.map Prod.fst →
      writeList blk l b = blk b := by
  intro l
  induction l with
  | nil => intro blk _; rfl
  | cons p rest ih =>
    intro blk hbm
    cases p with
    | mk c v =>
      simp only [List.map_cons, List.mem_cons] at hbm
      push_neg at hbm
      rw [writeList, ih _ hbm.2]
      simp only [updN]
      rw [if_neg hbm.1]

theorem writeList_get {b v : Nat} :
    ∀ (l : List (Nat × Nat)) (blk : Nat → Nat) (j : Nat),
      (l.map Prod.fst).Nodup → l.get? j = some (b, v) →
      writeList blk l b = v := by
  intro l
  induction l with
  | nil => intro blk j _ h; simp at h
  | cons p rest ih =>
    intro blk j hnd hj
    cases p with
    | mk c w =>
      simp only [List.map_cons, List.nodup_cons] at hnd
      cases j with
      | zero =>
        simp only [List.get?] at hj
        injection hj with hj
        injection hj with h1 h2
        subst h1; subst h2
        rw [writeList, writeList_notin _ _ hnd.1]
        simp [updN]
      | succ j2 =>
        simp only [List.get?] at hj
        rw [writeList]
        exact ih _ _ hnd.2 hj

theorem write_log_blocks_ne {c : Nat} :
    ∀ (t : List (Nat × Nat)) (blk : Nat → Nat) (i : Nat),
      (∀ j < t.length, c ≠ LOG_START + (i + j) + 1) →
      write_log_blocks blk i t c = blk c := by
  intro t
  induction t with
  | nil => intro blk i _; rfl
  | cons p rest ih =>
    intro blk i hc
    cases p with
    | mk b v =>
      rw [write_log_blocks]
      rw [ih _ _ (fun j hj => by
        have := hc (j + 1) (by simpa using Nat.succ_lt_succ hj)
        omega)]
      simp only [updN]
      rw [if_neg (by have := hc 0 (by simp); omega)]

theorem write_log_blocks_get {b v : Nat} :
    ∀ (t : List (Nat × Nat)) (blk : Nat → Nat) (i j : Nat),
      t.get? j = some (b, v) →
      write_log_blocks blk i t (LOG_START + (i + j) + 1) = v := by
  intro t
  induction t with
  | nil => intro blk i j h; simp at h
  | cons p rest ih =>
    intro blk i j hj
    cases p with
    | mk c w =>
      cases j with
      | zero =>
        simp only [List.get?] at hj
        injection hj with hj
        injection hj with h1 h2
        subst h2
        rw [write_log_blocks]
        rw [write_log_blocks_ne _ _ _ (fun j2 hj2 => by omega)]
        simp [updN]
      | succ j2 =>
        simp only [List.get?] at hj
        rw [write_log_blocks]
        have hrec := ih (updN blk (LOG_START + i + 1) w) (i + 1) j2 hj
        rw [show i + (j2 + 1) = i + 1 + j2 by omega]
        exact hrec

theorem installFrom_ne {c : Nat} (hb : Nat → Nat) :
    ∀ (k : Nat) (blk : Nat → Nat) (i : Nat),
      (∀ j < k, hb (i + j) ≠ c) →
      installFrom blk hb i k c = blk c := by
  intro k
  induction k with
  | zero => intro blk i _; rfl
  | succ k2 ih =>
    intro blk i hc
    rw [installFrom]
    rw [ih _ _ (fun j hj => by
      have := hc (j + 1) (Nat.succ_lt_succ hj)
      rw [show i + 1 + j = i + (j + 1) by omega]
      exact this)]
    have h0 : hb i ≠ c := by simpa using hc 0 (Nat.succ_pos _)
    simp only [updN]
    rw [if_neg (Ne.symm h0)]

theorem installFrom_get {c : Nat} (hb : Nat → Nat) :
    ∀ (k : Nat) (blk : Nat → Nat) (i j : Nat),
      j < k → hb (i + j) = c →
      (∀ j2 < k, hb (i + j2) = c → j2 = j) →
      (∀ j2 < k, LOG_START + LOG_SIZE ≤ hb (i + j2)) →
      i + k < LOG_SIZE →
      installFrom blk hb i k c = blk (LOG_START + (i + j) + 1) := by
  intro k
  induction k with
  | zero => intro blk i j hj; omega
  | succ k2 ih =>
    intro blk i j hj hhb huniq hdata hk
    rw [installFrom]
    cases j with
    | zero =>
      rw [installFrom_ne hb _ _ _ (fun j2 hj2 => by
        intro heq
        have := huniq (j2 + 1) (Nat.succ_lt_succ hj2)
          (by rw [show i + (j2 + 1) = i + 1 + j2 by omega]; exact heq)
        omega)]
      have hhb2 : hb i = c := by simpa using hhb
      simp [updN, hhb2]
    | succ j2 =>
      have hrec := ih (updN blk (hb i) (blk (LOG_START + i + 1))) (i + 1) j2
        (by omega)
        (by rw [show i + 1 + j2 = i + (j2 + 1) by omega]; exact hhb)
        (fun j3 hj3 hj3c => by
          have := huniq (j3 + 1) (Nat.succ_lt_succ hj3)
            (by rw [show i + (j3 + 1) = i + 1 + j3 by omega]; exact hj3c)
          omega)
        (fun j3 hj3 => by
          have := hdata (j3 + 1) (Nat.succ_lt_succ hj3)
          rw [show i + 1 + j3 = i + (j3 + 1) by omega]
          exact this)
        (by omega)
      rw [hrec]
      rw [show i + 1 + j2 = i + (j2 + 1) by omega]
      have hd0 : LOG_START + LOG_SIZE ≤ hb i := by
        simpa using hdata 0 (Nat.succ_pos _)
      simp only [updN]
      rw [if_neg (by omega)]

/-- Membership in the on-disk log region `[LOG_START, LOG_START + LOG_SIZE)`
(the header block plus the log data blocks). -/
def inLog (b : Nat) : Prop := LOG_START ≤ b ∧ b < LOG_START + LOG_SIZE

instance : DecidablePred inLog := fun b => by unfold inLog; infer_instance

theorem writeList_congr_at {b : Nat} :
    ∀ (t : List (Nat × Nat)) (blk1 blk2 : Nat → Nat), blk1 b = blk2 b →
      writeList blk1 t b = writeList blk2 t b := by
  intro t
  induction t with
  | nil => intro blk1 blk2 h; exact h
  | cons p rest ih =>
    intro blk1 blk2 h
    cases p with
    | mk c v =>
      rw [writeList, writeList]
      exact ih _ _ (by simp only [updN]; split <;> simp [h])

theorem applyTxns_congr_at {b : Nat} :
    ∀ (ts : List Txn) (blk1 blk2 : Nat → Nat), blk1 b = blk2 b →
      applyTxns blk1 ts b = applyTxns blk2 ts b := by
  intro ts
  induction ts with
  | nil => intro blk1 blk2 h; exact h
  | cons t rest ih =>
    intro blk1 blk2 h
    rw [applyTxns, applyTxns]
    exact ih _ _ (writeList_congr_at _ _ _ h)

/-- Installing a freshly written log (either the tail of a `crash_stage = 0`
commit, or `recover_log` after a `crash_stage = 1` commit) applies the
transaction to every block outside the log region. -/
theorem install_after_log_spec (t : Txn) (ht : TxnValid t) (base : Nat → Nat)
    (hbf : Nat → Nat)
    (hagr : ∀ j < t.length, hbf j = ((t.get? j).map Prod.fst).getD 0)
    (b : Nat) (hnb : ¬ inLog b) :
    installFrom (write_log_blocks base 0 t) hbf 0 t.length b =
      writeList base t b := by
  obtain ⟨hlen, hdata, hnd⟩ := ht
  have hLS : LOG_SIZE = 30 := rfl
  have hL : LOG_START = 2 := rfl
  have hbfst : ∀ j2 < t.length, ∃ q, t.get? j2 = some q ∧ hbf j2 = q.1 := by
    intro j2 hj2
    cases hx : t.get? j2 with
    | none =>
      rw [List.get?_eq_none] at hx
      omega
    | some q =>
      refine ⟨q, rfl, ?_⟩
      have := hagr j2 hj2
      rw [hx] at this
      simpa using this
  by_cases hmem : b ∈ t.map Prod.fst
  · obtain ⟨p, hp, hfst⟩ := List.mem_map.mp hmem
    obtain ⟨j, hj⟩ := List.mem_iff_get?.mp hp
    have hjlt : j < t.length := by
      by_contra hge
      rw [List.get?_eq_none.mpr (by omega)] at hj
      exact Option.noConfusion hj
    have hmapj : (t.map Prod.fst).get? j = some b := by
      rw [List.get?_map, hj]; simpa using hfst
    have hb0 : hbf (0 + j) = b := by
      rw [Nat.zero_add]
      obtain ⟨q, hq, hqf⟩ := hbfst j hjlt
      rw [hq] at hj
      injection hj with hj
      rw [hqf, hj, hfst]
    have huniq : ∀ j2 < t.length, hbf (0 + j2) = b → j2 = j := by
      intro j2 hj2 hj2b
      rw [Nat.zero_add] at hj2b
      obtain ⟨q, hq, hqf⟩ := hbfst j2 hj2
      have hmapj2 : (t.map Prod.fst).get? j2 = some b := by
        rw [List.get?_map, hq]
        simp [← hqf, hj2b]
      exact List.get?_inj (by simpa using hj2) hnd (hmapj2.trans hmapj.symm)
    have hdat : ∀ j2 < t.length, LOG_START + LOG_SIZE ≤ hbf (0 + j2) := by
      intro j2 hj2
      rw [Nat.zero_add]
      obtain ⟨q, hq, hqf⟩ := hbfst j2 hj2
      rw [hqf]
      exact hdata q (List.get?_mem hq)
    rw [installFrom_get hbf t.length _ 0 j hjlt hb0 huniq hdat (by omega)]
    have hv : t.get? j = some (b, p.2) := by
      rw [hj]; cases p; simp only at hfst; simp [hfst]
    have hwlb := write_log_blocks_get t base 0 j hv
    rw [Nat.zero_add] at hwlb
    rw [Nat.zero_add, hwlb]
    exact (writeList_get t base j hnd hv).symm
  · have hne : ∀ j2 < t.length, hbf (0 + j2) ≠ b := by
      intro j2 hj2
      rw [Nat.zero_add]
      intro heq
      apply hmem
      obtain ⟨q, hq, hqf⟩ := hbfst j2 hj2
      rw [← heq, hqf]
      exact List.mem_map_of_mem _ (List.get?_mem hq)
    rw [installFrom_ne hbf _ _ _ hne]
    have hne2 : ∀ j < t.length, b ≠ LOG_START + (0 + j) + 1 := by
      intro j hjl
      simp only [inLog, not_and, not_lt] at hnb
      omega
    rw [write_log_blocks_ne t base 0 hne2]
    rw [writeList_notin t base hmem]

theorem commit0_spec (d : Disk) (t : Txn) (ht : TxnValid t) (hd : d.hdr.n = 0) :
    (commit_transaction d t 0).hdr.n = 0 ∧
    ∀ b, ¬ inLog b → (commit_transaction d t 0).blk b = writeList d.blk t b := by
  by_cases h0 : t.length = 0
  · have ht0 : t = [] := List.length_eq_zero.mp h0
    subst ht0
    simp [commit_transaction, hd, writeList]
  · constructor
    · simp [commit_transaction, h0, write_log_header]
    · intro b hnb
      have hblk : (commit_transaction d t 0).blk =
          installFrom (write_log_blocks d.blk 0 t)
            (fun i => ((t.get? i).map Prod.fst).getD 0) 0 t.length := by
        simp [commit_transaction, h0, write_log_header]
      rw [hblk]
      exact install_after_log_spec t ht d.blk _ (fun j hj => rfl) b hnb

theorem commit2_spec (d : Disk) (t : Txn) (ht : TxnValid t) :
    (commit_transaction d t 2).hdr = d.hdr ∧
    ∀ b, ¬ inLog b → (commit_transaction d t 2).blk b = d.blk b := by
  obtain ⟨hlen, _, _⟩ := ht
  have hLS : LOG_SIZE = 30 := rfl
  have hL : LOG_START = 2 := rfl
  by_cases h0 : t.length = 0
  · have ht0 : t = [] := List.length_eq_zero.mp h0
    subst ht0
    simp [commit_transaction]
  · constructor
    · simp [commit_transaction, h0]
    · intro b hnb
      simp only [commit_transaction, h0, if_false, if_pos rfl]
      exact write_log_blocks_ne t d.blk 0 (fun j hjl => by
        simp only [inLog, not_and, not_lt] at hnb
        omega)

theorem recover_log_empty (d : Disk) (hd : d.hdr.n = 0) :
    ∃ d2, recover_log d = some d2 ∧ d2.blk = d.blk ∧ d2.hdr.n = 0 := by
  have hcond : ¬ (d.hdr.n > LOG_SIZE) := by rw [hd]; decide
  refine ⟨_, by unfold recover_log; rw [if_neg hcond], ?_, ?_⟩
  · simp [write_log_header, hd, installFrom]
  · simp [write_log_header]

theorem commit1_recover_spec (d : Disk) (t : Txn) (ht : TxnValid t)
    (hd : d.hdr.n = 0) :
    ∃ d2, recover_log (commit_transaction d t 1) = some d2 ∧ d2.hdr.n = 0 ∧
      ∀ b, ¬ inLog b → d2.blk b = writeList d.blk t b := by
  obtain ⟨hlen, hdata, hnd⟩ := ht
  have hLS : LOG_SIZE = 30 := rfl
  by_cases h0 : t.length = 0
  · have ht0 : t = [] := List.length_eq_zero.mp h0
    subst ht0
    obtain ⟨d2, h1, h2, h3⟩ := recover_log_empty d hd
    exact ⟨d2, h1, h3, fun b _ => by rw [h2, writeList]⟩
  · set dc := commit_transaction d t 1 with hdc
    have hcn : dc.hdr.n = t.length := by
      simp [hdc, commit_transaction, h0, write_log_header]
    have hcb : ∀ j < t.length,
        dc.hdr.blocks j = ((t.get? j).map Prod.fst).getD 0 := by
      intro j hj
      simp [hdc, commit_transaction, h0, write_log_header, hj]
    have hcblk : dc.blk = write_log_blocks d.blk 0 t := by
      simp [hdc, commit_transaction, h0, write_log_header]
    have hcond : ¬ (dc.hdr.n > LOG_SIZE) := by rw [hcn]; omega
    refine ⟨_, by unfold recover_log; rw [if_neg hcond], ?_, ?_⟩
    · simp [write_log_header]
    · intro b hnb
      simp only [write_log_header]
      rw [hcblk, hcn]
      exact install_after_log_spec t ⟨hlen, hdata, hnd⟩ d.blk
        dc.hdr.blocks (fun j hj => hcb j hj) b hnb

theorem runCommits_spec :
    ∀ (ts : List Txn) (d : Disk), (∀ u ∈ ts, TxnValid u) → d.hdr.n = 0 →
      (runCommits d ts).hdr.n = 0 ∧
      ∀ b, ¬ inLog b → (runCommits d ts).blk b = applyTxns d.blk ts b := by
  intro ts
  induction ts with
  | nil => intro d _ hd; exact ⟨hd, fun b _ => rfl⟩
  | cons t rest ih =>
    intro d hval hd
    have hvt : TxnValid t := hval t (List.mem_cons_self _ _)
    have h0 := commit0_spec d t hvt hd
    have hrec := ih (commit_transaction d t 0)
      (fun u hu => hval u (List.mem_cons_of_mem _ hu)) h0.1
    refine ⟨hrec.1, fun b hnb => ?_⟩
    rw [runCommits, hrec.2 b hnb, applyTxns]
    exact applyTxns_congr_at _ _ _ (h0.2 b hnb)

/-! ### Claim theorems for the allocator, the cache reset, `readi`, the log -/

/-- C5: in every state of the frame allocator reachable from `pmm_init` by
sequences of `alloc_page`, `alloc_pages`, `free_page`, `free_pages` and
`page_incref` that respect their preconditions, each frame index
`f ∈ [0, NPAGES)` satisfies: `refcount[f] = 0` iff the bitmap bit of `f` is
clear. -/
theorem claim_C5_frame_free_iff_refcount_zero (K : Nat → Bool) (s : PmmSt)
    (hreach : PmmReachable K s) (f : Nat) (_hf : f < NPAGES) :
    s.rc f = 0 ↔ s.bitmap f = false :=
  (pmmInv_reachable hreach f).2

theorem claim_C5_frame_free_iff_refcount_zero_witness :
    3 < NPAGES ∧
      ((pmm_init (fun _ => false)).rc 3 = 0 ↔
        (pmm_init (fun _ => false)).bitmap 3 = false) :=
  ⟨by norm_num [NPAGES, PHYSTOP, KERNBASE, PGSIZE],
   claim_C5_frame_free_iff_refcount_zero (fun _ => false) _
     Relation.ReflTransGen.refl 3
     (by norm_num [NPAGES, PHYSTOP, KERNBASE, PGSIZE])⟩

/-- C10: `clear_cache` unconditionally zeroes the refcount and clears the
`B_VALID` and `B_DIRTY` flags of all 32 buffer-cache entries — whatever the
current refcount (pinned buffers included) — and leaves each entry's `dev`,
`blockno`, hash-chain link and LRU links, and the cache-level hash table and
LRU head, unchanged. -/
theorem claim_C10_clear_cache_frame (s : BcacheSt) (i : Fin NBUF) :
    ((clear_cache s).bufs i).refcnt = 0 ∧
    ((clear_cache s).bufs i).flags &&& B_VALID = 0 ∧
    ((clear_cache s).bufs i).flags &&& B_DIRTY = 0 ∧
    ((clear_cache s).bufs i).dev = (s.bufs i).dev ∧
    ((clear_cache s).bufs i).blockno = (s.bufs i).blockno ∧
    ((clear_cache s).bufs i).hashNext = (s.bufs i).hashNext ∧
    ((clear_cache s).bufs i).lruPrev = (s.bufs i).lruPrev ∧
    ((clear_cache s).bufs i).lruNext = (s.bufs i).lruNext ∧
    (clear_cache s).hash = s.hash ∧
    (clear_cache s).headPrev = s.headPrev ∧
    (clear_cache s).headNext = s.headNext := by
  have hV : ((s.bufs i).flags &&& 0xFFFFFFF9) &&& B_VALID = 0 := by
    rw [B_VALID, Nat.land_assoc]
    have h : (0xFFFFFFF9 : Nat) &&& 2 = 0 := by decide
    rw [h]; simp
  have hD : ((s.bufs i).flags &&& 0xFFFFFFF9) &&& B_DIRTY = 0 := by
    rw [B_DIRTY, Nat.land_assoc]
    have h : (0xFFFFFFF9 : Nat) &&& 4 = 0 := by decide
    rw [h]; simp
  exact ⟨rfl, hV, hD, rfl, rfl, rfl, rfl, rfl, rfl, rfl, rfl⟩

/-- C6: for every inode, offset and length, `readi(ip, 0, dst, off, n)`
transfers into the kernel buffer and returns exactly
`min(n, ip.size − off)` bytes when `off ≤ ip.size` and `off + n` does not
overflow a `uint32`; when `off > ip.size` or `off + n` overflows it returns
−1 and transfers nothing. -/
theorem claim_C6_readi_bounds (ip : RInode) (off n : Nat)
    (hoffu : off < U32) (hnu : n < U32) :
    (off ≤ ip.size → off + n < U32 →
      readi ip off n =
        some ((List.range (min n (ip.size - off))).map
          (fun j => ip.data (off + j)))) ∧
    (ip.size < off ∨ U32 ≤ off + n → readi ip off n = none) := by
  have hU : U32 = 4294967296 := by norm_num [U32]
  constructor
  · intro hle hov
    have hcond : ¬(off > ip.size ∨ (off + n) % U32 < off) := by
      rw [Nat.mod_eq_of_lt hov]
      omega
    unfold readi
    rw [if_neg hcond]
    set n2 := if off + n > ip.size then ip.size - off else n with hn2
    have hn2min : n2 = min n (ip.size - off) := by
      rw [hn2]; split <;> omega
    show some (readiLoop ip.data off n2 0 []) =
      some ((List.range (min n (ip.size - off))).map (fun j => ip.data (off + j)))
    rw [readiLoop_spec ip.data off n2 (n2 - 0) 0 [] rfl]
    simp only [Nat.sub_zero, Nat.add_zero, List.nil_append, Nat.zero_add]
    rw [hn2min]
  · intro hbad
    unfold readi
    rw [if_pos ?_]
    rw [hU] at hbad hoffu hnu ⊢
    omega

theorem claim_C6_readi_bounds_witness :
    readi ⟨3, fun j => j + 10⟩ 1 5 = some [11, 12] := by
  have h := (claim_C6_readi_bounds ⟨3, fun j => j + 10⟩ 1 5
    (by norm_num [U32]) (by norm_num [U32])).1 (by norm_num) (by norm_num [U32])
  rw [h]
  rfl

/-- Demonstration inputs for the log claim: a disk whose block `b` holds
content `b`, two committed transactions and one aborted one. -/
def logDemoDisk : Disk := ⟨⟨0, fun _ => 0⟩, fun b => b⟩

def logDemoTxns : List Txn := [[(40, 100)], [(41, 200), (42, 300)]]

def logDemoTxn : Txn := [(40, 111)]

instance : DecidablePred TxnValid := fun t => by
  unfold TxnValid; infer_instance

/-- C2: starting from a clean log, run any sequence of fully committed
transactions and then one more commit aborted by the crash hook.  The
committed prefix is exactly applied to the data region; an abort at
`crash_stage = 2` (log blocks written, header not yet written) is discarded
by `recover_log`, leaving the data region as the committed prefix left it;
an abort at `crash_stage = 1` (header written) is fully installed by
`recover_log`.  Hence after recovery the on-disk data region equals the
result of applying exactly the fully committed transactions, in order. -/
theorem claim_C2_log_crash_recovery (d : Disk) (ts : List Txn) (t : Txn)
    (hclean : d.hdr.n = 0) (hts : ∀ u ∈ ts, TxnValid u) (ht : TxnValid t) :
    (∀ b, ¬ inLog b → (runCommits d ts).blk b = applyTxns d.blk ts b) ∧
    (∃ d2, recover_log (commit_transaction (runCommits d ts) t 2) = some d2 ∧
       ∀ b, ¬ inLog b → d2.blk b = applyTxns d.blk ts b) ∧
    (∃ d2, recover_log (commit_transaction (runCommits d ts) t 1) = some d2 ∧
       ∀ b, ¬ inLog b → d2.blk b = writeList (applyTxns d.blk ts) t b) := by
  have hrun := runCommits_spec ts d hts hclean
  refine ⟨hrun.2, ?_, ?_⟩
  · have hc2 := commit2_spec (runCommits d ts) t ht
    have hn : (commit_transaction (runCommits d ts) t 2).hdr.n = 0 := by
      rw [hc2.1, hrun.1]
    obtain ⟨d2, hrec, hblk, _⟩ := recover_log_empty _ hn
    exact ⟨d2, hrec, fun b hnb => by
      rw [hblk, hc2.2 b hnb, hrun.2 b hnb]⟩
  · obtain ⟨d2, hrec, _, hblk⟩ := commit1_recover_spec (runCommits d ts) t ht hrun.1
    refine ⟨d2, hrec, fun b hnb => ?_⟩
    rw [hblk b hnb]
    exact writeList_congr_at _ _ _ (hrun.2 b hnb)

theorem claim_C2_log_crash_recovery_witness :
    (∀ b, ¬ inLog b →
       (runCommits logDemoDisk logDemoTxns).blk b =
         applyTxns logDemoDisk.blk logDemoTxns b) ∧
    (∃ d2, recover_log (commit_transaction (runCommits logDemoDisk logDemoTxns)
         logDemoTxn 2) = some d2 ∧
       ∀ b, ¬ inLog b → d2.blk b = applyTxns logDemoDisk.blk logDemoTxns b) ∧
    (∃ d2, recover_log (commit_transaction (runCommits logDemoDisk logDemoTxns)
         logDemoTxn 1) = some d2 ∧
       ∀ b, ¬ inLog b →
         d2.blk b = writeList (applyTxns logDemoDisk.blk logDemoTxns) logDemoTxn b) :=
  claim_C2_log_crash_recovery logDemoDisk logDemoTxns logDemoTxn rfl
    (by decide) (by decide)

/-! ### Sv39 page tables and COW (vm.c / part_016, riscv.h)

A user page table is abstracted by the result of `walk_lookup` on each
virtual page: `none` when the walk fails (a missing intermediate table),
`some pte` for the 64-bit leaf entry.  `map_page` through `walk_create`
can create a leaf slot (value 0) or fail on allocation, which is supplied
as an oracle `canMap`.  Frame refcounts are the allocator state `PmmSt`
above.  The 4-KiB `memmove` of page contents is not represented: the
claims below quantify over return codes, page-table entries and
refcounts only. -/

def PTab := Nat → Option Nat

def PTE2PA (pte : Nat) : Nat := (pte >>> 10) <<< 12
def PA2PTE (pa : Nat) : Nat := (pa >>> 12) <<< 10
def PTE_FLAGS (pte : Nat) : Nat := pte &&& 0x3FF
def PGROUNDDOWN (a : Nat) : Nat := a / PGSIZE * PGSIZE
def PGROUNDUP (a : Nat) : Nat := (a + PGSIZE - 1) / PGSIZE * PGSIZE

/-- Pointwise update of a page table at a virtual page number. -/
def updPT (pt : PTab) (vpn : Nat) (pte : Nat) : PTab :=
  fun j => if j = vpn then some pte else pt j

/-- `walk_lookup(pt, va)`: panics (`none`) when `va ≥ MAXVA`; otherwise
returns the leaf-PTE slot for `va`'s page (`some none` = null pointer). -/
def walk_lookup (pt : PTab) (va : Nat) : Option (Option Nat) :=
  if va ≥ MAXVA then none
  else some (pt (va / PGSIZE))

/-- `map_page(pt, va, pa, perm)`: reject unaligned addresses, fail when
`walk_create` cannot allocate (`canMap` false), panic on remap, else
install `PA2PTE(pa) | perm | PTE_V`. -/
def map_page (canMap : Nat → Bool) (pt : PTab) (va pa perm : Nat) :
    Option (PTab × Int) :=
  if va % PGSIZE ≠ 0 ∨ pa % PGSIZE ≠ 0 then some (pt, -1)
  else if canMap (va / PGSIZE) = false then some (pt, -1)
  else
    let cur := (pt (va / PGSIZE)).getD 0
    if cur &&& PTE_V ≠ 0 then none
    else some (updPT pt (va / PGSIZE) (PA2PTE pa ||| perm ||| PTE_V), 0)

/-- `cow_clone_page(pt, va0)`: on a valid, user, COW-marked leaf, allocate
a fresh frame, remap the page writable with COW cleared, and drop one
reference to the old frame (`page_decref` = `free_page`). -/
def cow_clone_page (pt : PTab) (s : PmmSt) (va0 : Nat) :
    Option ((PTab × PmmSt) × Int) :=
  match walk_lookup pt va0 with
  | none => none
  | some none => some ((pt, s), -1)
  | some (some pte) =>
    if pte &&& PTE_V = 0 ∨ pte &&& PTE_U = 0 then some ((pt, s), -1)
    else if pte &&& PTE_COW = 0 then some ((pt, s), -1)
    else
      let pa := PTE2PA pte
      let alloc := alloc_page s
      if alloc.2 = 0 then some ((pt, alloc.1), -1)
      else
        let flags := (PTE_FLAGS pte ||| PTE_W) &&& 0xFFFFFFFFFFFFFEFF
        let pt2 := updPT pt (va0 / PGSIZE) (PA2PTE alloc.2 ||| flags)
        match free_page alloc.1 pa with
        | none => none
        | some s2 => some ((pt2, s2), 0)

/-- `cow_resolve(pt, faultva)` = `cow_clone_page` on the page base. -/
def cow_resolve (pt : PTab) (s : PmmSt) (faultva : Nat) :
    Option ((PTab × PmmSt) × Int) :=
  cow_clone_page pt s (PGROUNDDOWN faultva)

/-! ### The user-trap classifier (trap.c / part_000)

`usertrap` dispatches on `scause`: 8 runs the syscall path, an interrupt
bit dispatches the IRQ chain, and every other exception prints a
diagnostic and sets `p->killed = 1`.  There is no page-fault branch. -/

inductive UserTrapAction where
  | runSyscall : UserTrapAction
  | deviceIrq (irq : Nat) : UserTrapAction
  | markKilled : UserTrapAction
deriving DecidableEq

/-- One `usertrap` dispatch: the new `killed` flag and the action taken. -/
def usertrap_step (scause : Nat) (killed : Bool) : Bool × UserTrapAction :=
  if scause = 8 then (killed, .runSyscall)
  else if scause &&& 2 ^ 63 ≠ 0 then (killed, .deviceIrq (scause &&& (2 ^ 63 - 1)))
  else (true, .markKilled)

/-! #### PTE bit arithmetic toolkit -/

theorem lor_and_distrib (a b m : Nat) :
    (a ||| b) &&& m = (a &&& m) ||| (b &&& m) := by
  apply Nat.eq_of_testBit_eq
  intro i
  simp [Nat.testBit_and, Nat.testBit_or, Bool.and_or_distrib_right]

theorem and_1023_eq_mod (n : Nat) : n &&& 1023 = n % 1024 := by
  have h := Nat.and_pow_two_sub_one_eq_mod n 10
  norm_num at h
  exact h

theorem mul1024_and_lt (a m : Nat) (hm : m < 1024) : a * 1024 &&& m = 0 := by
  have hm2 : (1023 : Nat) &&& m = m := by
    rw [Nat.land_comm, and_1023_eq_mod]
    omega
  calc a * 1024 &&& m = a * 1024 &&& (1023 &&& m) := by rw [hm2]
    _ = (a * 1024 &&& 1023) &&& m := by rw [Nat.land_assoc]
    _ = 0 := by rw [and_1023_eq_mod]; simp [Nat.mul_mod_left, Nat.zero_and]

theorem PA2PTE_eq (pa : Nat) : PA2PTE pa = (pa / 4096) * 1024 := by
  rw [PA2PTE, Nat.shiftLeft_eq, Nat.shiftRight_eq_div_pow]

theorem pte_build_and (pa perm m : Nat) (hm : m < 1024) :
    (PA2PTE pa ||| perm) &&& m = perm &&& m := by
  rw [lor_and_distrib, PA2PTE_eq, mul1024_and_lt _ _ hm, Nat.zero_or]

theorem flags_lt (pte : Nat) : PTE_FLAGS pte < 1024 := by
  rw [PTE_FLAGS]
  show pte &&& 1023 < 1024
  rw [and_1023_eq_mod]
  omega

theorem PTE2PA_build (pa perm : Nat) (hperm : perm < 1024)
    (hal : pa % PGSIZE = 0) : PTE2PA (PA2PTE pa ||| perm) = pa := by
  rw [PTE2PA, PA2PTE_eq]
  have hsr : (pa / 4096 * 1024 ||| perm) >>> 10 = pa / 4096 := by
    apply Nat.eq_of_testBit_eq
    intro i
    rw [Nat.testBit_shiftRight, Nat.testBit_or]
    have h1 : (pa / 4096 * 1024).testBit (10 + i) = (pa / 4096).testBit i := by
      rw [show pa / 4096 * 1024 = (pa / 4096) <<< 10 by rw [Nat.shiftLeft_eq]]
      rw [Nat.testBit_shiftLeft]
      simp
    have h2 : perm.testBit (10 + i) = false := by
      apply Nat.testBit_eq_false_of_lt
      have hp : (2 : Nat) ^ 10 ≤ 2 ^ (10 + i) :=
        Nat.pow_le_pow_right (by norm_num) (by omega)
      have h1024 : (2 : Nat) ^ 10 = 1024 := by norm_num
      omega
    rw [h1, h2, Bool.or_false]
  rw [hsr, Nat.shiftLeft_eq]
  simp only [PGSIZE] at hal
  have h4096 : (2 : Nat) ^ 12 = 4096 := by norm_num
  omega

theorem PTE_FLAGS_build (pa perm : Nat) (hperm : perm < 1024) :
    PTE_FLAGS (PA2PTE pa ||| perm) = perm := by
  rw [PTE_FLAGS]
  show (PA2PTE pa ||| perm) &&& 1023 = perm
  rw [pte_build_and _ _ _ (by norm_num), and_1023_eq_mod]
  omega

/-! ### `uvmunmap` and `uvmcopy` (vm.c / part_016) -/

/-- The loop of `uvmunmap(pt, va, npages, do_free = 1)`, iterating by
virtual page number: skip missing or invalid entries, otherwise
`page_decref` the frame and zero the entry. -/
def uvmunmapLoop (pt : PTab) (s : PmmSt) : Nat → Nat → Option (PTab × PmmSt)
  | _, 0 => some (pt, s)
  | vpn, k + 1 =>
    match walk_lookup pt (vpn * PGSIZE) with
    | none => none
    | some none => uvmunmapLoop pt s (vpn + 1) k
    | some (some pte) =>
      if pte &&& PTE_V = 0 then uvmunmapLoop pt s (vpn + 1) k
      else
        match free_page s (PTE2PA pte) with
        | none => none
        | some s2 => uvmunmapLoop (updPT pt vpn 0) s2 (vpn + 1) k

/-- `uvmunmap(pt, va, npages, 1)`: panics on an unaligned `va`. -/
def uvmunmap (pt : PTab) (s : PmmSt) (va npages : Nat) :
    Option (PTab × PmmSt) :=
  if va % PGSIZE ≠ 0 then none
  else uvmunmapLoop pt s (va / PGSIZE) npages

/-- The rollback loop at the end of `uvmcopy`: for every parent page below
`revert_end` whose PTE carries `PTE_COW`, restore `PTE_W` and clear
`PTE_COW` only when the frame's refcount has dropped back to 1
(`page_refcount`'s validity panics included). -/
def uvmcopyRevert (s : PmmSt) : PTab → Nat → Nat → Option PTab
  | old, _, 0 => some old
  | old, vpn, k + 1 =>
    match walk_lookup old (vpn * PGSIZE) with
    | none => none
    | some none => uvmcopyRevert s old (vpn + 1) k
    | some (some pte) =>
      if pte &&& PTE_COW = 0 then uvmcopyRevert s old (vpn + 1) k
      else
        let pa := PTE2PA pte
        if ¬ validPa pa then none
        else if NPAGES ≤ page_index pa then none
        else if s.rc (page_index pa) = 1 then
          uvmcopyRevert s (updPT old vpn ((pte ||| PTE_W) &&& 0xFFFFFFFFFFFFFEFF))
            (vpn + 1) k
        else uvmcopyRevert s old (vpn + 1) k

/-- The `err:` label of `uvmcopy`: unmap the child pages mapped so far
(releasing their frame references), then run the parent rollback loop. -/
def uvmcopyErr (old newp : PTab) (s : PmmSt) (pm : Nat) :
    Option (PTab × PTab × PmmSt × Int) :=
  match uvmunmap newp s 0 pm with
  | none => none
  | some (newp2, s2) =>
    match uvmcopyRevert s2 old 0 pm with
    | none => none
    | some old2 => some (old2, newp2, s2, -1)

/-- `cow_candidate`: the parent PTE is both writable and user-accessible
(`(*pte & PTE_W) && (*pte & PTE_U)`). -/
def cow_candidate (pte : Nat) : Bool :=
  pte &&& PTE_W ≠ 0 ∧ pte &&& PTE_U ≠ 0

/-- `new_flags` of one `uvmcopy` iteration: on a COW candidate drop
`PTE_W` and add `PTE_COW`, otherwise keep the parent's flag bits. -/
def uvm_new_flags (pte : Nat) : Nat :=
  if cow_candidate pte then
    (PTE_FLAGS pte &&& 0xFFFFFFFFFFFFFFFB) ||| PTE_COW
  else PTE_FLAGS pte

/-- The per-page loop of `uvmcopy`: look up the parent PTE, take a frame
reference, map the child (write-and-user pages lose `PTE_W` and gain
`PTE_COW` in both mappings, every child mapping keeps only
`R/W/X/U/COW`), and fall into the error path when the lookup or the
mapping fails. -/
def uvmcopyLoop (canMap : Nat → Bool) :
    PTab → PTab → PmmSt → Nat → Nat → Nat → Option (PTab × PTab × PmmSt × Int)
  | old, newp, s, _, 0, _ => some (old, newp, s, 0)
  | old, newp, s, vpn, k + 1, pm =>
    match walk_lookup old (vpn * PGSIZE) with
    | none => none
    | some none => uvmcopyErr old newp s pm
    | some (some pte) =>
      if pte &&& PTE_V = 0 then uvmcopyErr old newp s pm
      else
        let pa := PTE2PA pte
        match page_incref s pa with
        | none => none
        | some s1 =>
          match map_page canMap newp (vpn * PGSIZE) pa
            (uvm_new_flags pte &&& (PTE_R ||| PTE_W ||| PTE_X ||| PTE_U ||| PTE_COW)) with
          | none => none
          | some (newp2, r) =>
            if r < 0 then
              match free_page s1 pa with
              | none => none
              | some s2 => uvmcopyErr old newp s2 pm
            else
              let old2 := if cow_candidate pte then
                  updPT old vpn (PA2PTE pa ||| (uvm_new_flags pte ||| PTE_V))
                else old
              uvmcopyLoop canMap old2 newp2 s1 (vpn + 1) k (pm + 1)

/-- `uvmcopy(old, newp, sz)` over the allocator state `s`, with `canMap`
deciding which child slots `walk_create` can allocate. -/
def uvmcopy (canMap : Nat → Bool) (old newp : PTab) (s : PmmSt) (sz : Nat) :
    Option (PTab × PTab × PmmSt × Int) :=
  uvmcopyLoop canMap old newp s 0 (PGROUNDUP sz / PGSIZE) 0

theorem nat_or_eq_zero_right {a b : Nat} (h : a ||| b = 0) : b = 0 := by
  apply Nat.eq_of_testBit_eq
  intro i
  have h2 := congrArg (fun x => x.testBit i) h
  simp only [Nat.testBit_or, Nat.zero_testBit, Bool.or_eq_false_iff] at h2
  simp [h2.2]

theorem or_and_self_ne_zero (a b : Nat) (hb : b ≠ 0) : (a ||| b) &&& b ≠ 0 := by
  rw [lor_and_distrib, Nat.and_self]
  intro h
  exact hb (nat_or_eq_zero_right h)

/-- `uvmunmap`'s loop over a run of child pages that are all mapped to
valid, allocated, pairwise-distinct frames with refcount ≥ 2: every entry
is zeroed and every frame loses exactly one reference; the bitmap and
everything outside the run are untouched. -/
theorem uvmunmapLoop_spec (F : Nat → Nat) :
    ∀ (k v0 : Nat) (pt : PTab) (s : PmmSt),
      (v0 + k) * PGSIZE ≤ MAXVA →
      (∀ i, v0 ≤ i → i < v0 + k → ∃ pte, pt i = some pte ∧
        pte &&& PTE_V ≠ 0 ∧ validPa (PTE2PA pte) ∧
        page_index (PTE2PA pte) = F i ∧
        s.bitmap (F i) = true ∧ 2 ≤ s.rc (F i)) →
      (∀ i j, v0 ≤ i → i < v0 + k → v0 ≤ j → j < v0 + k → i ≠ j →
        F i ≠ F j) →
      ∃ pt2 s2, uvmunmapLoop pt s v0 k = some (pt2, s2) ∧
        (∀ i, v0 ≤ i → i < v0 + k → pt2 i = some 0) ∧
        (∀ i, i < v0 ∨ v0 + k ≤ i → pt2 i = pt i) ∧
        (∀ f, s2.bitmap f = s.bitmap f) ∧
        (∀ i, v0 ≤ i → i < v0 + k → s2.rc (F i) = s.rc (F i) - 1) ∧
        (∀ f, (∀ i, v0 ≤ i → i < v0 + k → F i ≠ f) → s2.rc f = s.rc f) := by
  intro k
  induction k with
  | zero =>
    intro v0 pt s _ _ _
    exact ⟨pt, s, rfl, fun i h1 h2 => absurd h2 (by omega),
      fun i _ => rfl, fun f => rfl, fun i h1 h2 => absurd h2 (by omega),
      fun f _ => rfl⟩
  | succ k2 ih =>
    intro v0 pt s hmax hmap hdist
    obtain ⟨pte, hpt, hV, hvalid, hidx, hbm, hrc⟩ :=
      hmap v0 (le_refl v0) (by omega)
    have hPG : PGSIZE = 4096 := rfl
    have hMV : MAXVA = 2 ^ 38 := rfl
    have hmax2 : (v0 + (k2 + 1)) * 4096 ≤ 2 ^ 38 := by
      rw [hPG, hMV] at hmax; exact hmax
    have hwalk : walk_lookup pt (v0 * PGSIZE) = some (some pte) := by
      rw [walk_lookup, if_neg (by rw [hPG, hMV]; push_neg; omega)]
      rw [show v0 * PGSIZE / PGSIZE = v0 from Nat.mul_div_cancel _ (by decide)]
      rw [hpt]
    have hfree : free_page s (PTE2PA pte) =
        some { s with rc := updI s.rc (F v0) (s.rc (F v0) - 1) } := by
      simp only [free_page]
      rw [if_neg (show ¬¬validPa (PTE2PA pte) by simpa using hvalid), hidx]
      rw [if_neg (by simp [hbm]), if_neg (by omega), if_pos (by omega)]
    have hstep : uvmunmapLoop pt s v0 (k2 + 1) =
        uvmunmapLoop (updPT pt v0 0)
          { s with rc := updI s.rc (F v0) (s.rc (F v0) - 1) } (v0 + 1) k2 := by
      simp only [uvmunmapLoop, hwalk, hfree, if_neg hV]
    have hrec := ih (v0 + 1) (updPT pt v0 0)
      { s with rc := updI s.rc (F v0) (s.rc (F v0) - 1) }
      (by rw [hPG, hMV]; omega)
      (fun i h1 h2 => by
        obtain ⟨q, hq, hqV, hqval, hqidx, hqbm, hqrc⟩ := hmap i (by omega) (by omega)
        refine ⟨q, ?_, hqV, hqval, hqidx, hqbm, ?_⟩
        · rw [updPT, if_neg (by omega)]; exact hq
        · simp only [updI]
          rw [if_neg (hdist i v0 (by omega) (by omega) (by omega) (by omega)
            (by omega))]
          exact hqrc)
      (fun i j h1 h2 h3 h4 hne => hdist i j (by omega) (by omega) (by omega)
        (by omega) hne)
    obtain ⟨pt2, s2, hloop, hzero, hout, hbmeq, hrcdec, hrckeep⟩ := hrec
    refine ⟨pt2, s2, by rw [hstep]; exact hloop, ?_, ?_, hbmeq, ?_, ?_⟩
    · intro i h1 h2
      by_cases hi : i = v0
      · rw [hi, hout v0 (by omega), updPT, if_pos rfl]
      · exact hzero i (by omega) (by omega)
    · intro i hi
      rw [hout i (by omega), updPT, if_neg (by omega)]
    · intro i h1 h2
      by_cases hi : i = v0
      · rw [hi, hrckeep (F v0) (fun j hj1 hj2 =>
          hdist j v0 (by omega) (by omega) (by omega) (by omega) (by omega))]
        simp [updI]
      · rw [hrcdec i (by omega) (by omega)]
        simp only [updI]
        rw [if_neg (hdist i v0 (by omega) (by omega) (by omega) (by omega)
          (by omega))]
    · intro f hf
      rw [hrckeep f (fun j hj1 hj2 => hf j (by omega) (by omega))]
      simp only [updI]
      rw [if_neg (fun heq => hf v0 (le_refl _) (by omega) heq.symm)]

/-- The page-index of a valid physical address is a valid frame index. -/
theorem page_index_lt_NPAGES {pa : Nat} (h : validPa pa) :
    page_index pa < NPAGES := by
  obtain ⟨h1, h2, h3⟩ := h
  have hK : KERNBASE = 0x80000000 := rfl
  have hP : PHYSTOP = 0x80000000 + 128 * 1024 * 1024 := rfl
  have hN : NPAGES = 32768 := rfl
  rw [page_index, hN]
  rw [hK] at h2
  rw [hP] at h3
  have : pa - 0x80000000 < 128 * 1024 * 1024 := by omega
  show (pa - KERNBASE) / PGSIZE < 32768
  rw [show KERNBASE = 0x80000000 from rfl, show PGSIZE = 4096 from rfl]
  omega

/-- The rollback loop of `uvmcopy`: COW-marked parent entries whose frame
refcount is exactly 1 get `PTE_W` restored and `PTE_COW` cleared; every
other entry is left alone. -/
theorem uvmcopyRevert_spec (s : PmmSt) :
    ∀ (k v0 : Nat) (old : PTab),
      (v0 + k) * PGSIZE ≤ MAXVA →
      (∀ i, v0 ≤ i → i < v0 + k → ∀ pte, old i = some pte →
        pte &&& PTE_COW ≠ 0 → validPa (PTE2PA pte)) →
      ∃ old2, uvmcopyRevert s old v0 k = some old2 ∧
        (∀ i, i < v0 ∨ v0 + k ≤ i → old2 i = old i) ∧
        (∀ i, v0 ≤ i → i < v0 + k →
          (old i = none → old2 i = none) ∧
          (∀ pte, old i = some pte →
            (pte &&& PTE_COW = 0 → old2 i = some pte) ∧
            (pte &&& PTE_COW ≠ 0 → s.rc (page_index (PTE2PA pte)) = 1 →
               old2 i = some ((pte ||| PTE_W) &&& 0xFFFFFFFFFFFFFEFF)) ∧
            (pte &&& PTE_COW ≠ 0 → s.rc (page_index (PTE2PA pte)) ≠ 1 →
               old2 i = some pte))) := by
  intro k
  induction k with
  | zero =>
    intro v0 old _ _
    exact ⟨old, rfl, fun i _ => rfl, fun i h1 h2 => absurd h2 (by omega)⟩
  | succ k2 ih =>
    intro v0 old hmax hvalid
    have hPG : PGSIZE = 4096 := rfl
    have hMV : MAXVA = 2 ^ 38 := rfl
    have hmax2 : (v0 + (k2 + 1)) * 4096 ≤ 2 ^ 38 := by
      rw [hPG, hMV] at hmax; exact hmax
    have hwalk : walk_lookup old (v0 * PGSIZE) = some (old v0) := by
      rw [walk_lookup, if_neg (by rw [hPG, hMV]; push_neg; omega)]
      rw [show v0 * PGSIZE / PGSIZE = v0 from Nat.mul_div_cancel _ (by decide)]
    cases hv0 : old v0 with
    | none =>
      rw [hv0] at hwalk
      have hstep : uvmcopyRevert s old v0 (k2 + 1) =
          uvmcopyRevert s old (v0 + 1) k2 := by
        simp only [uvmcopyRevert, hwalk]
      obtain ⟨old2, hrun, hout, hin⟩ := ih (v0 + 1) old
        (by rw [hPG, hMV]; rw [hPG, hMV] at hmax; omega)
        (fun i h1 h2 => hvalid i (by omega) (by omega))
      refine ⟨old2, by rw [hstep]; exact hrun, ?_, ?_⟩
      · intro i hi; exact hout i (by omega)
      · intro i h1 h2
        by_cases hi : i = v0
        · constructor
          · intro _; rw [hi, hout v0 (by omega), hv0]
          · intro pte hpte; rw [hi, hv0] at hpte; exact Option.noConfusion hpte
        · exact hin i (by omega) (by omega)
    | some pte =>
      rw [hv0] at hwalk
      by_cases hcow : pte &&& PTE_COW = 0
      · have hstep : uvmcopyRevert s old v0 (k2 + 1) =
            uvmcopyRevert s old (v0 + 1) k2 := by
          simp only [uvmcopyRevert, hwalk, hcow, if_pos]
        obtain ⟨old2, hrun, hout, hin⟩ := ih (v0 + 1) old
          (by rw [hPG, hMV]; rw [hPG, hMV] at hmax; omega)
          (fun i h1 h2 => hvalid i (by omega) (by omega))
        refine ⟨old2, by rw [hstep]; exact hrun, ?_, ?_⟩
        · intro i hi; exact hout i (by omega)
        · intro i h1 h2
          by_cases hi : i = v0
          · constructor
            · intro hnone; rw [hi, hv0] at hnone; exact Option.noConfusion hnone
            · intro q hq
              rw [hi, hv0] at hq
              injection hq with hq
              subst hq
              refine ⟨fun _ => by rw [hi, hout v0 (by omega), hv0], ?_, ?_⟩
              · intro hc _; exact absurd hc (by simp [hcow])
              · intro hc _; exact absurd hc (by simp [hcow])
          · exact hin i (by omega) (by omega)
      · have hval := hvalid v0 (le_refl _) (by omega) pte hv0 hcow
        have hlt := page_index_lt_NPAGES hval
        by_cases hrc1 : s.rc (page_index (PTE2PA pte)) = 1
        · have hstep : uvmcopyRevert s old v0 (k2 + 1) =
              uvmcopyRevert s (updPT old v0 ((pte ||| PTE_W) &&& 0xFFFFFFFFFFFFFEFF))
                (v0 + 1) k2 := by
            simp only [uvmcopyRevert, hwalk]
            rw [if_neg hcow, if_neg (by simpa using hval), if_neg (by omega),
              if_pos hrc1]
          obtain ⟨old2, hrun, hout, hin⟩ := ih (v0 + 1)
            (updPT old v0 ((pte ||| PTE_W) &&& 0xFFFFFFFFFFFFFEFF))
            (by rw [hPG, hMV]; rw [hPG, hMV] at hmax; omega)
            (fun i h1 h2 q hq hqc => by
              rw [updPT, if_neg (by omega)] at hq
              exact hvalid i (by omega) (by omega) q hq hqc)
          refine ⟨old2, by rw [hstep]; exact hrun, ?_, ?_⟩
          · intro i hi
            rw [hout i (by omega), updPT, if_neg (by omega)]
          · intro i h1 h2
            by_cases hi : i = v0
            · constructor
              · intro hnone; rw [hi, hv0] at hnone; exact Option.noConfusion hnone
              · intro q hq
                rw [hi, hv0] at hq
                injection hq with hq
                subst hq
                refine ⟨fun hc => absurd hc hcow, fun _ _ => ?_, fun _ hc => absurd hrc1 hc⟩
                rw [hi, hout v0 (by omega), updPT, if_pos rfl]
            · have heq : updPT old v0 ((pte ||| PTE_W) &&& 0xFFFFFFFFFFFFFEFF) i = old i := by
                rw [updPT, if_neg (by omega)]
              have hres := hin i (by omega) (by omega)
              rw [heq] at hres
              exact hres
        · have hstep : uvmcopyRevert s old v0 (k2 + 1) =
              uvmcopyRevert s old (v0 + 1) k2 := by
            simp only [uvmcopyRevert, hwalk]
            rw [if_neg hcow, if_neg (by simpa using hval), if_neg (by omega),
              if_neg hrc1]
          obtain ⟨old2, hrun, hout, hin⟩ := ih (v0 + 1) old
            (by rw [hPG, hMV]; rw [hPG, hMV] at hmax; omega)
            (fun i h1 h2 => hvalid i (by omega) (by omega))
          refine ⟨old2, by rw [hstep]; exact hrun, ?_, ?_⟩
          · intro i hi; exact hout i (by omega)
          · intro i h1 h2
            by_cases hi : i = v0
            · constructor
              · intro hnone; rw [hi, hv0] at hnone; exact Option.noConfusion hnone
              · intro q hq
                rw [hi, hv0] at hq
                injection hq with hq
                subst hq
                refine ⟨fun hc => absurd hc hcow, fun _ hc => absurd hc hrc1,
                  fun _ _ => ?_⟩
                rw [hi, hout v0 (by omega), hv0]
            · exact hin i (by omega) (by omega)

/-- When every page in the run can be processed (parent leaf present and
valid, frame allocated, child slot empty, `walk_create` succeeds), the
`uvmcopy` loop succeeds: every frame gains one reference, COW candidates
are re-mapped without `PTE_W` and with `PTE_COW` in parent and child, and
other parent entries are untouched while the child receives the parent's
`R/W/X/U/COW` bits plus `PTE_V`. -/
theorem uvmcopyLoop_ok (canMap : Nat → Bool) (P : Nat → Nat) :
    ∀ (k v0 pm : Nat) (old newp : PTab) (s : PmmSt),
      (v0 + k) * PGSIZE ≤ MAXVA →
      (∀ i, v0 ≤ i → i < v0 + k → old i = some (P i)) →
      (∀ i, v0 ≤ i → i < v0 + k → P i &&& PTE_V ≠ 0) →
      (∀ i, v0 ≤ i → i < v0 + k → validPa (PTE2PA (P i))) →
      (∀ i, v0 ≤ i → i < v0 + k →
        s.bitmap (page_index (PTE2PA (P i))) = true) →
      (∀ i, v0 ≤ i → i < v0 + k → newp i = none) →
      (∀ i, v0 ≤ i → i < v0 + k → canMap i = true) →
      (∀ i j, v0 ≤ i → i < v0 + k → v0 ≤ j → j < v0 + k → i ≠ j →
        page_index (PTE2PA (P i)) ≠ page_index (PTE2PA (P j))) →
      ∃ old2 newp2 s2,
        (∀ kk, uvmcopyLoop canMap old newp s v0 (k + kk) pm =
          uvmcopyLoop canMap old2 newp2 s2 (v0 + k) kk (pm + k)) ∧
        (∀ i, i < v0 ∨ v0 + k ≤ i → old2 i = old i ∧ newp2 i = newp i) ∧
        (∀ i, v0 ≤ i → i < v0 + k →
          newp2 i = some (PA2PTE (PTE2PA (P i)) |||
            (uvm_new_flags (P i) &&& (PTE_R ||| PTE_W ||| PTE_X ||| PTE_U ||| PTE_COW)) |||
            PTE_V) ∧
          (cow_candidate (P i) = true →
            old2 i = some (PA2PTE (PTE2PA (P i)) |||
              (uvm_new_flags (P i) ||| PTE_V))) ∧
          (cow_candidate (P i) = false → old2 i = old i)) ∧
        (∀ i, v0 ≤ i → i < v0 + k →
          s2.rc (page_index (PTE2PA (P i))) =
            s.rc (page_index (PTE2PA (P i))) + 1) ∧
        (∀ f, (∀ i, v0 ≤ i → i < v0 + k → page_index (PTE2PA (P i)) ≠ f) →
          s2.rc f = s.rc f) ∧
        (∀ f, s2.bitmap f = s.bitmap f) := by
  intro k
  induction k with
  | zero =>
    intro v0 pm old newp s _ _ _ _ _ _ _ _
    exact ⟨old, newp, s, fun kk => by rw [Nat.zero_add, Nat.add_zero, Nat.add_zero],
      fun i _ => ⟨rfl, rfl⟩,
      fun i h1 h2 => absurd h2 (by omega),
      fun i h1 h2 => absurd h2 (by omega), fun f _ => rfl, fun f => rfl⟩
  | succ k2 ih =>
    intro v0 pm old newp s hmax hold hV hvalid hbm hchild hcan hdist
    have hPG : PGSIZE = 4096 := rfl
    have hMV : MAXVA = 2 ^ 38 := rfl
    have hmax2 : (v0 + (k2 + 1)) * 4096 ≤ 2 ^ 38 := by
      rw [hPG, hMV] at hmax; exact hmax
    have hdiv : v0 * PGSIZE / PGSIZE = v0 := Nat.mul_div_cancel _ (by decide)
    have hV0 := hV v0 (le_refl _) (by omega)
    have hval0 := hvalid v0 (le_refl _) (by omega)
    have hbm0 := hbm v0 (le_refl _) (by omega)
    have hwalk : walk_lookup old (v0 * PGSIZE) = some (some (P v0)) := by
      rw [walk_lookup, if_neg (by rw [hPG, hMV]; push_neg; omega), hdiv,
        hold v0 (le_refl _) (by omega)]
    have hincref : page_incref s (PTE2PA (P v0)) =
        some { s with rc := updI s.rc (page_index (PTE2PA (P v0))) (s.rc (page_index (PTE2PA (P v0))) + 1) } := by
      simp only [page_incref]
      rw [if_neg (by simpa using hval0)]
      rw [if_neg (by simp [hbm0])]
    have hmp : map_page canMap newp (v0 * PGSIZE) (PTE2PA (P v0))
        (uvm_new_flags (P v0) &&& (PTE_R ||| PTE_W ||| PTE_X ||| PTE_U ||| PTE_COW)) =
        some (updPT newp v0 (PA2PTE (PTE2PA (P v0)) |||
          (uvm_new_flags (P v0) &&& (PTE_R ||| PTE_W ||| PTE_X ||| PTE_U ||| PTE_COW)) |||
          PTE_V), 0) := by
      simp only [map_page, hdiv]
      rw [if_neg (by simp [Nat.mul_mod_left, hval0.1])]
      rw [if_neg (by simp [hcan v0 (le_refl _) (by omega)])]
      rw [hchild v0 (le_refl _) (by omega)]
      simp [PTE_V]
    have hstep : ∀ kk, uvmcopyLoop canMap old newp s v0 (k2 + kk + 1) pm =
        uvmcopyLoop canMap
          (if cow_candidate (P v0) then
            updPT old v0 (PA2PTE (PTE2PA (P v0)) ||| (uvm_new_flags (P v0) ||| PTE_V))
          else old)
          (updPT newp v0 (PA2PTE (PTE2PA (P v0)) |||
            (uvm_new_flags (P v0) &&& (PTE_R ||| PTE_W ||| PTE_X ||| PTE_U ||| PTE_COW)) |||
            PTE_V))
          { s with rc := updI s.rc (page_index (PTE2PA (P v0))) (s.rc (page_index (PTE2PA (P v0))) + 1) }
          (v0 + 1) (k2 + kk) (pm + 1) := by
      intro kk
      simp only [uvmcopyLoop, hwalk, if_neg hV0, hincref, hmp]
      norm_num
    have hrec := ih (v0 + 1) (pm + 1)
      (if cow_candidate (P v0) then
        updPT old v0 (PA2PTE (PTE2PA (P v0)) ||| (uvm_new_flags (P v0) ||| PTE_V))
      else old)
      (updPT newp v0 (PA2PTE (PTE2PA (P v0)) |||
        (uvm_new_flags (P v0) &&& (PTE_R ||| PTE_W ||| PTE_X ||| PTE_U ||| PTE_COW)) |||
        PTE_V))
      { s with rc := updI s.rc (page_index (PTE2PA (P v0))) (s.rc (page_index (PTE2PA (P v0))) + 1) }
      (by rw [hPG, hMV]; omega)
      (fun i h1 h2 => by
        split
        · rw [updPT, if_neg (by omega)]
          exact hold i (by omega) (by omega)
        · exact hold i (by omega) (by omega))
      (fun i h1 h2 => hV i (by omega) (by omega))
      (fun i h1 h2 => hvalid i (by omega) (by omega))
      (fun i h1 h2 => hbm i (by omega) (by omega))
      (fun i h1 h2 => by
        rw [updPT, if_neg (by omega)]
        exact hchild i (by omega) (by omega))
      (fun i h1 h2 => hcan i (by omega) (by omega))
      (fun i j h1 h2 h3 h4 hne =>
        hdist i j (by omega) (by omega) (by omega) (by omega) hne)
    obtain ⟨old2, newp2, s2, hrun, hout, hin, hrcin, hrcout, hbmeq⟩ := hrec
    refine ⟨old2, newp2, s2, ?_, ?_, ?_, ?_, ?_, ?_⟩
    · intro kk
      rw [show k2 + 1 + kk = k2 + kk + 1 from by omega, hstep kk, hrun kk,
        show v0 + 1 + k2 = v0 + (k2 + 1) from by omega,
        show pm + 1 + k2 = pm + (k2 + 1) from by omega]
    · intro i hi
      obtain ⟨ho, hn⟩ := hout i (by omega)
      constructor
      · rw [ho]
        split
        · rw [updPT, if_neg (by omega)]
        · rfl
      · rw [hn, updPT, if_neg (by omega)]
    · intro i h1 h2
      by_cases hi : i = v0
      · subst hi
        obtain ⟨ho, hn⟩ := hout i (by omega)
        refine ⟨?_, ?_, ?_⟩
        · rw [hn, updPT, if_pos rfl]
        · intro hc
          rw [ho]
          simp only [hc, if_pos]
          rw [updPT, if_pos rfl]
        · intro hc
          rw [ho]
          simp only [hc]
          rw [if_neg (by simp)]
      · have hres := hin i (by omega) (by omega)
        have heqo : (if cow_candidate (P v0) then
            updPT old v0 (PA2PTE (PTE2PA (P v0)) ||| (uvm_new_flags (P v0) ||| PTE_V))
          else old) i = old i := by
          split
          · rw [updPT, if_neg (by omega)]
          · rfl
        rw [heqo] at hres
        exact hres
    · intro i h1 h2
      by_cases hi : i = v0
      · subst hi
        rw [hrcout (page_index (PTE2PA (P i)))
          (fun j hj1 hj2 => hdist j i (by omega) (by omega) (by omega)
            (by omega) (by omega))]
        simp [updI]
      · rw [hrcin i (by omega) (by omega)]
        simp only [updI]
        rw [if_neg (hdist i v0 (by omega) (by omega) (by omega) (by omega)
          (by omega))]
    · intro f hf
      rw [hrcout f (fun j hj1 hj2 => hf j (by omega) (by omega))]
      simp only [updI]
      rw [if_neg (fun heq => hf v0 (le_refl _) (by omega) heq.symm)]
    · intro f
      rw [hbmeq f]

/-! #### More PTE bit lemmas, for the `uvmcopy` flag transformations -/

theorem nat_or_eq_zero_left {a b : Nat} (h : a ||| b = 0) : a = 0 := by
  apply Nat.eq_of_testBit_eq
  intro i
  have h2 := congrArg (fun x => x.testBit i) h
  simp only [Nat.testBit_or, Nat.zero_testBit, Bool.or_eq_false_iff] at h2
  simp [h2.1]

theorem testBit_false_of_and_two_pow {x n : Nat} (h : x &&& 2 ^ n = 0) :
    x.testBit n = false := by
  by_contra hb
  rw [Bool.not_eq_false] at hb
  have h2 := Nat.and_two_pow x n
  rw [h, hb] at h2
  have h3 : 0 < 2 ^ n := Nat.two_pow_pos n
  simp only [Bool.toNat_true, one_mul] at h2
  omega

theorem testBit_true_of_and_two_pow {x n : Nat} (h : x &&& 2 ^ n ≠ 0) :
    x.testBit n = true := by
  by_contra hb
  rw [Bool.not_eq_true] at hb
  have h2 := Nat.and_two_pow x n
  rw [hb] at h2
  simp only [Bool.toNat_false, zero_mul] at h2
  exact h h2

theorem or_two_pow_absorb {x n : Nat} (h : x &&& 2 ^ n ≠ 0) : x ||| 2 ^ n = x := by
  have hb := testBit_true_of_and_two_pow h
  apply Nat.eq_of_testBit_eq
  intro i
  rw [Nat.testBit_or, Nat.testBit_two_pow]
  by_cases hi : n = i
  · subst hi; simp [hb]
  · simp [hi]

theorem and_mask64_self {x n : Nat} (hn : n < 64) (hx : x < 2 ^ 64)
    (h : x &&& 2 ^ n = 0) : x &&& ((2 ^ 64 - 1) ^^^ 2 ^ n) = x := by
  have hb := testBit_false_of_and_two_pow h
  apply Nat.eq_of_testBit_eq
  intro i
  rw [Nat.testBit_and, Nat.testBit_xor, Nat.testBit_two_pow_sub_one,
    Nat.testBit_two_pow]
  by_cases hi : i = n
  · subst hi; simp [hb]
  · have hni : ¬ n = i := fun hc => hi hc.symm
    by_cases h64 : i < 64
    · simp [h64, hni]
    · have hf : x.testBit i = false :=
        Nat.testBit_eq_false_of_lt
          (lt_of_lt_of_le hx (Nat.pow_le_pow_right (by norm_num) (by omega)))
      simp [hf]

theorem and_not_or_self {x n : Nat} (hn : n < 64) (hx : x < 2 ^ 64)
    (hb : x &&& 2 ^ n ≠ 0) : (x &&& ((2 ^ 64 - 1) ^^^ 2 ^ n)) ||| 2 ^ n = x := by
  have hbt := testBit_true_of_and_two_pow hb
  apply Nat.eq_of_testBit_eq
  intro i
  rw [Nat.testBit_or, Nat.testBit_and, Nat.testBit_xor, Nat.testBit_two_pow_sub_one,
    Nat.testBit_two_pow]
  by_cases hi : i = n
  · subst hi; simp [hbt]
  · have hni : ¬ n = i := fun hc => hi hc.symm
    by_cases h64 : i < 64
    · simp [h64, hni]
    · have hf : x.testBit i = false :=
        Nat.testBit_eq_false_of_lt
          (lt_of_lt_of_le hx (Nat.pow_le_pow_right (by norm_num) (by omega)))
      simp [hf, hni]

theorem maskFEFF_eq : (0xFFFFFFFFFFFFFEFF : Nat) = (2 ^ 64 - 1) ^^^ 2 ^ 8 := by
  decide

theorem maskFFFB_eq : (0xFFFFFFFFFFFFFFFB : Nat) = (2 ^ 64 - 1) ^^^ 2 ^ 2 := by
  decide

theorem shiftLeft_shiftRight_self (a n : Nat) : a <<< n >>> n = a := by
  apply Nat.eq_of_testBit_eq
  intro i
  rw [Nat.testBit_shiftRight, Nat.testBit_shiftLeft]
  simp

/-- Every PTE is its own address part or-ed with its own flag bits. -/
theorem pte_canonical (pte : Nat) : PA2PTE (PTE2PA pte) ||| PTE_FLAGS pte = pte := by
  rw [PTE2PA, PA2PTE, shiftLeft_shiftRight_self, PTE_FLAGS]
  apply Nat.eq_of_testBit_eq
  intro i
  rw [Nat.testBit_or, Nat.testBit_shiftLeft, Nat.testBit_shiftRight, Nat.testBit_and,
    show (0x3FF : Nat) = 2 ^ 10 - 1 from by norm_num, Nat.testBit_two_pow_sub_one]
  by_cases hi : i < 10
  · simp [hi, Nat.not_le_of_lt hi]
  · rw [show 10 + (i - 10) = i from by omega]
    simp [hi, Nat.le_of_not_lt hi]

theorem PA2PTE_PTE2PA_le (pte : Nat) : PA2PTE (PTE2PA pte) ≤ pte := by
  rw [PTE2PA, PA2PTE, shiftLeft_shiftRight_self, Nat.shiftLeft_eq,
    Nat.shiftRight_eq_div_pow]
  exact Nat.div_mul_le_self pte (2 ^ 10)

theorem PA2PTE_PTE2PA_and (pte m : Nat) (hm : m < 1024) :
    PA2PTE (PTE2PA pte) &&& m = 0 := by
  rw [PA2PTE_eq]
  exact mul1024_and_lt _ m hm

/-- The parent PTE produced by `uvmcopy` on a writable-and-user page is the
original PTE with `PTE_W` cleared and `PTE_COW` set. -/
theorem cow_parent_pte {pte : Nat} (hlt : pte < 2 ^ 64) (hV : pte &&& PTE_V ≠ 0)
    (hcand : cow_candidate pte = true) :
    PA2PTE (PTE2PA pte) ||| (uvm_new_flags pte ||| PTE_V) =
      (pte &&& 0xFFFFFFFFFFFFFFFB) ||| PTE_COW := by
  have hhilt : PA2PTE (PTE2PA pte) < 2 ^ 64 :=
    lt_of_le_of_lt (PA2PTE_PTE2PA_le pte) hlt
  have hF1 : PTE_FLAGS pte &&& 0xFFFFFFFFFFFFFFFB &&& 1 ≠ 0 := by
    rw [Nat.land_assoc, show (0xFFFFFFFFFFFFFFFB : Nat) &&& 1 = 1 from by decide,
      PTE_FLAGS, Nat.land_assoc, show (0x3FF : Nat) &&& 1 = 1 from by decide]
    exact hV
  have hrhs : pte &&& 0xFFFFFFFFFFFFFFFB =
      PA2PTE (PTE2PA pte) ||| (PTE_FLAGS pte &&& 0xFFFFFFFFFFFFFFFB) := by
    conv_lhs => rw [← pte_canonical pte]
    rw [lor_and_distrib]
    congr 1
    rw [maskFFFB_eq]
    exact and_mask64_self (by norm_num) hhilt
      (by rw [show (2 : Nat) ^ 2 = 4 from by norm_num]
          exact PA2PTE_PTE2PA_and pte 4 (by norm_num))
  rw [hrhs, uvm_new_flags, if_pos hcand]
  show PA2PTE (PTE2PA pte) |||
      ((PTE_FLAGS pte &&& 0xFFFFFFFFFFFFFFFB ||| PTE_COW) ||| 1) =
    (PA2PTE (PTE2PA pte) ||| (PTE_FLAGS pte &&& 0xFFFFFFFFFFFFFFFB)) ||| PTE_COW
  rw [← Nat.lor_assoc, ← Nat.lor_assoc]
  show _ ||| 2 ^ 0 = _
  apply or_two_pow_absorb
  rw [show (2 : Nat) ^ 0 = 1 from by norm_num, lor_and_distrib, lor_and_distrib]
  rw [PA2PTE_PTE2PA_and pte 1 (by norm_num),
    show PTE_COW &&& 1 = 0 from by decide, Nat.zero_or, Nat.or_zero]
  exact hF1

/-- Setting `PTE_W` back and clearing `PTE_COW` on such a parent PTE
recovers the original PTE exactly. -/
theorem cow_parent_restore {pte : Nat} (hlt : pte < 2 ^ 64)
    (hW : pte &&& PTE_W ≠ 0) (hnc : pte &&& PTE_COW = 0) :
    (((pte &&& 0xFFFFFFFFFFFFFFFB) ||| PTE_COW) ||| PTE_W) &&&
      0xFFFFFFFFFFFFFEFF = pte := by
  have hA8 : (pte &&& 0xFFFFFFFFFFFFFFFB) &&& 2 ^ 8 = 0 := by
    rw [show (2 : Nat) ^ 8 = 256 from by norm_num, Nat.land_assoc,
      show (0xFFFFFFFFFFFFFFFB : Nat) &&& 256 = 256 from by decide]
    exact hnc
  have hAlt : pte &&& 0xFFFFFFFFFFFFFFFB < 2 ^ 64 :=
    lt_of_le_of_lt Nat.and_le_left hlt
  rw [lor_and_distrib, lor_and_distrib,
    show PTE_COW &&& 0xFFFFFFFFFFFFFEFF = 0 from by decide,
    show PTE_W &&& 0xFFFFFFFFFFFFFEFF = 4 from by decide,
    maskFEFF_eq, and_mask64_self (by norm_num) hAlt hA8, Nat.or_zero]
  have h2 : pte &&& 0xFFFFFFFFFFFFFFFB = pte &&& ((2 ^ 64 - 1) ^^^ 2 ^ 2) := by
    rw [maskFFFB_eq]
  rw [h2, show (4 : Nat) = 2 ^ 2 from by norm_num]
  exact and_not_or_self (by norm_num) hlt
    (by rw [show (2 : Nat) ^ 2 = 4 from by norm_num]; exact hW)

theorem cow_candidate_W {pte : Nat} (h : cow_candidate pte = true) :
    pte &&& PTE_W ≠ 0 := by
  simp only [cow_candidate, decide_eq_true_eq] at h
  exact h.1

theorem uvm_new_flags_lt (pte : Nat) : uvm_new_flags pte < 1024 := by
  rw [uvm_new_flags]
  split
  · have h1 : PTE_FLAGS pte &&& 0xFFFFFFFFFFFFFFFB < 2 ^ 10 :=
      lt_of_le_of_lt Nat.and_le_left (by have h := flags_lt pte; norm_num; exact h)
    have h2 : PTE_COW < 2 ^ 10 := by decide
    have h3 := Nat.or_lt_two_pow h1 h2
    norm_num at h3
    exact h3
  · exact flags_lt pte

theorem pground_npages (npages : Nat) :
    PGROUNDUP (npages * PGSIZE) / PGSIZE = npages := by
  rw [PGROUNDUP]
  have hPG : PGSIZE = 4096 := rfl
  rw [hPG]
  omega

/-- Setting `PTE_W` and clearing `PTE_COW` gives the same result whether
it is applied to the COW-transformed PTE or to the original PTE: the two
differ only in the W bit (being set) and the COW bit (being cleared). -/
theorem cow_restore_general (pte : Nat) :
    (((pte &&& 0xFFFFFFFFFFFFFFFB) ||| PTE_COW) ||| PTE_W) &&&
      0xFFFFFFFFFFFFFEFF = (pte ||| PTE_W) &&& 0xFFFFFFFFFFFFFEFF := by
  apply Nat.eq_of_testBit_eq
  intro i
  rw [maskFFFB_eq, maskFEFF_eq,
    show PTE_COW = 2 ^ 8 from rfl, show PTE_W = 2 ^ 2 from rfl]
  simp only [Nat.testBit_and, Nat.testBit_or, Nat.testBit_xor,
    Nat.testBit_two_pow_sub_one, Nat.testBit_two_pow]
  by_cases h8 : 8 = i
  · subst h8
    simp
  · by_cases h2 : 2 = i
    · subst h2
      simp
    · by_cases h64 : i < 64
      · simp [h8, h2, h64]
      · simp [h8, h2, h64]

/-- A child PTE installed by `map_page` has `PTE_V` set. -/
theorem child_pte_V (pa g : Nat) : ((PA2PTE pa ||| g) ||| PTE_V) &&& PTE_V ≠ 0 :=
  or_and_self_ne_zero (PA2PTE pa ||| g) 1 (by norm_num)

/-- A child PTE installed by `map_page` points to the frame it was given. -/
theorem child_pte_PA {pa : Nat} (g : Nat) (hg : g < 1024) (hal : pa % PGSIZE = 0) :
    PTE2PA ((PA2PTE pa ||| g) ||| PTE_V) = pa := by
  rw [Nat.lor_assoc]
  refine PTE2PA_build pa (g ||| PTE_V) ?_ hal
  have h1 : g < 2 ^ 10 := by norm_num; omega
  have h2 : PTE_V < 2 ^ 10 := by decide
  have := Nat.or_lt_two_pow h1 h2
  norm_num at this
  exact this

/-- A concrete two-page parent address space for exercising `uvmcopy`:
page 0 is writable and user (flags `V|R|W|U` = 23, a COW candidate);
page 1 is read-only user with the hardware-managed accessed bit set
(flags `V|R|U|A` = 83, bit 6 = `PTE_A`). -/
def uvmDemoP : Nat → Nat :=
  fun i => if i = 0 then PA2PTE 0x80000000 ||| 23 else PA2PTE 0x80001000 ||| 83

def uvmDemoOld : PTab := fun i => if i < 2 then some (uvmDemoP i) else none

def uvmDemoNew : PTab := fun _ => none

/-- Frames 0 and 1 allocated with refcount 1, everything else free. -/
def uvmDemoPmm : PmmSt :=
  { bitmap := fun q => decide (q < 2)
    rc := fun q => if q < 2 then 1 else 0
    freeCount := 32766 }

/-- C3, counterexample to "otherwise copies the parent's PTE bits as-is
into the child": parent page 1 is mapped read-only-user with the `PTE_A`
(accessed, bit 6) flag set, `uvmcopy` succeeds, but the child's PTE keeps
only the `R/W/X/U/COW` flag bits (plus `V`): the child PTE is 19 above the
address bits, not the parent's 83 — `PTE_A` is not copied. -/
theorem claim_C3_counterexample :
    (uvmcopy (fun _ => true) uvmDemoOld uvmDemoNew uvmDemoPmm (2 * PGSIZE)).map
        (fun r => (r.2.1 1, r.2.2.2)) =
      some (some (PA2PTE 0x80001000 ||| 19), 0) ∧
    uvmDemoOld 1 = some (PA2PTE 0x80001000 ||| 83) ∧
    (PA2PTE 0x80001000 ||| 83) &&& 64 ≠ 0 ∧
    (PA2PTE 0x80001000 ||| 19) &&& 64 = 0 ∧
    (PA2PTE 0x80001000 ||| 19) ≠ (PA2PTE 0x80001000 ||| 83) := by
  refine ⟨by decide, by decide, by decide, by decide, by decide⟩

/-- C3: `uvmcopy(parent, child, sz)`, for EVERY mapped parent table —
including tables whose PTEs already carry `PTE_COW` from an earlier fork —
increments the frame refcount of each mapped user page.  For a parent PTE
that is writable and user it clears `PTE_W` and sets `PTE_COW` in both the
parent and the child; otherwise it copies only the parent's `R/W/X/U/COW`
permission bits into the child (plus `PTE_V`): other parent PTE bits, such
as A/D, are NOT copied, so the original claim's "copies the parent's PTE
bits as-is" is corrected here (an already-COW parent page keeps its PTE
and the child inherits the COW bit).  If mapping page `f` fails, it unmaps
the `f` child pages mapped so far (zeroing their entries and dropping
their frame references), then for every parent page below `f` whose PTE is
COW-marked — whether COW-ified by this call or COW from before — restores
`PTE_W` and clears `PTE_COW` exactly when the page's frame refcount has
dropped back to 1 (a freshly COW-ified page is thereby restored to its
original PTE), leaves every other parent entry as the loop left it, and
returns -1. -/
theorem claim_C3_uvmcopy_cow_fork
    (canMap : Nat → Bool) (P : Nat → Nat) (npages f : Nat)
    (old newp : PTab) (s : PmmSt)
    (hmax : npages * PGSIZE ≤ MAXVA)
    (hlt : ∀ i, i < npages → P i < 2 ^ 64)
    (hold : ∀ i, i < npages → old i = some (P i))
    (hV : ∀ i, i < npages → P i &&& PTE_V ≠ 0)
    (hvalid : ∀ i, i < npages → validPa (PTE2PA (P i)))
    (hbm : ∀ i, i < npages → s.bitmap (page_index (PTE2PA (P i))) = true)
    (hrc : ∀ i, i < npages → 1 ≤ s.rc (page_index (PTE2PA (P i))))
    (hchild : ∀ i, i < npages → newp i = none)
    (hdist : ∀ i j, i < npages → j < npages → i ≠ j →
      page_index (PTE2PA (P i)) ≠ page_index (PTE2PA (P j))) :
    ((∀ i, i < npages → canMap i = true) →
      ∃ old2 newp2 s2,
        uvmcopy canMap old newp s (npages * PGSIZE) = some (old2, newp2, s2, 0) ∧
        (∀ i, i < npages →
          newp2 i = some (PA2PTE (PTE2PA (P i)) |||
            (uvm_new_flags (P i) &&&
              (PTE_R ||| PTE_W ||| PTE_X ||| PTE_U ||| PTE_COW)) ||| PTE_V) ∧
          (cow_candidate (P i) = true →
            old2 i = some ((P i &&& 0xFFFFFFFFFFFFFFFB) ||| PTE_COW)) ∧
          (cow_candidate (P i) = false → old2 i = old i) ∧
          s2.rc (page_index (PTE2PA (P i))) =
            s.rc (page_index (PTE2PA (P i))) + 1) ∧
        (∀ q, s2.bitmap q = s.bitmap q)) ∧
    (f < npages → (∀ i, i < f → canMap i = true) → canMap f = false →
      ∃ old2 newp2 s2,
        uvmcopy canMap old newp s (npages * PGSIZE) = some (old2, newp2, s2, -1) ∧
        (∀ i, i < f → newp2 i = some 0) ∧
        (∀ i, f ≤ i → newp2 i = newp i) ∧
        (∀ q, s2.rc q = s.rc q) ∧
        (∀ q, s2.bitmap q = s.bitmap q) ∧
        (∀ i, i < npages →
          (f ≤ i → old2 i = old i) ∧
          (cow_candidate (P i) = false → P i &&& PTE_COW = 0 → old2 i = old i) ∧
          (i < f → (cow_candidate (P i) = true ∨ P i &&& PTE_COW ≠ 0) →
            s.rc (page_index (PTE2PA (P i))) = 1 →
            old2 i = some ((P i ||| PTE_W) &&& 0xFFFFFFFFFFFFFEFF)) ∧
          (i < f → cow_candidate (P i) = true → P i &&& PTE_COW = 0 →
            s.rc (page_index (PTE2PA (P i))) = 1 → old2 i = old i) ∧
          (i < f → cow_candidate (P i) = true →
            s.rc (page_index (PTE2PA (P i))) ≠ 1 →
            old2 i = some ((P i &&& 0xFFFFFFFFFFFFFFFB) ||| PTE_COW)) ∧
          (i < f → cow_candidate (P i) = false → P i &&& PTE_COW ≠ 0 →
            s.rc (page_index (PTE2PA (P i))) ≠ 1 →
            old2 i = old i))) := by
  have hPG : PGSIZE = 4096 := rfl
  have hnp : PGROUNDUP (npages * PGSIZE) / PGSIZE = npages := pground_npages npages
  constructor
  · intro hcan
    obtain ⟨old2, newp2, s2, hrun, hout, hin, hrcin, hrcout, hbmeq⟩ :=
      uvmcopyLoop_ok canMap P npages 0 0 old newp s
        (by rw [Nat.zero_add]; exact hmax)
        (fun i _ h2 => hold i (by omega))
        (fun i _ h2 => hV i (by omega))
        (fun i _ h2 => hvalid i (by omega))
        (fun i _ h2 => hbm i (by omega))
        (fun i _ h2 => hchild i (by omega))
        (fun i _ h2 => hcan i (by omega))
        (fun i j _ h2 _ h4 hne => hdist i j (by omega) (by omega) hne)
    refine ⟨old2, newp2, s2, ?_, ?_, hbmeq⟩
    · rw [uvmcopy, hnp]
      have heq := hrun 0
      rw [Nat.add_zero] at heq
      rw [heq]
      rfl
    · intro i hi
      obtain ⟨hnew, hcowT, hcowF⟩ := hin i (by omega) (by omega)
      refine ⟨hnew, ?_, hcowF, hrcin i (by omega) (by omega)⟩
      intro hc
      rw [hcowT hc, cow_parent_pte (hlt i hi) (hV i hi) hc]
  · intro hf hcanpre hcanf
    have hmaxf : (0 + f) * PGSIZE ≤ MAXVA := by
      rw [Nat.zero_add]
      calc f * PGSIZE ≤ npages * PGSIZE :=
            Nat.mul_le_mul_right _ (Nat.le_of_lt hf)
        _ ≤ MAXVA := hmax
    obtain ⟨old2, newp2, s2, hrun, hout, hin, hrcin, hrcout, hbmeq⟩ :=
      uvmcopyLoop_ok canMap P f 0 0 old newp s
        hmaxf
        (fun i _ h2 => hold i (by omega))
        (fun i _ h2 => hV i (by omega))
        (fun i _ h2 => hvalid i (by omega))
        (fun i _ h2 => hbm i (by omega))
        (fun i _ h2 => hchild i (by omega))
        (fun i _ h2 => hcanpre i (by omega))
        (fun i j _ h2 _ h4 hne => hdist i j (by omega) (by omega) hne)
    have hvalf := hvalid f hf
    have hdivf : f * PGSIZE / PGSIZE = f := Nat.mul_div_cancel _ (by decide)
    have hold2f : old2 f = old f := (hout f (Or.inr (by omega))).1
    have hwalkf : walk_lookup old2 (f * PGSIZE) = some (some (P f)) := by
      rw [walk_lookup, if_neg ?_, hdivf, hold2f, hold f hf]
      rw [hPG, show MAXVA = 2 ^ 38 from rfl]
      push_neg
      have h1 : f * 4096 < npages * 4096 :=
        (Nat.mul_lt_mul_right (by norm_num)).mpr hf
      have h2 : npages * 4096 ≤ 2 ^ 38 := by
        rw [hPG, show MAXVA = 2 ^ 38 from rfl] at hmax
        exact hmax
      omega
    have hbm2f : s2.bitmap (page_index (PTE2PA (P f))) = true := by
      rw [hbmeq]; exact hbm f hf
    have hrc2f : s2.rc (page_index (PTE2PA (P f))) =
        s.rc (page_index (PTE2PA (P f))) :=
      hrcout _ (fun i _ h2 => hdist i f (by omega) hf (by omega))
    have hincf : page_incref s2 (PTE2PA (P f)) =
        some { s2 with rc := updI s2.rc (page_index (PTE2PA (P f))) (s2.rc (page_index (PTE2PA (P f))) + 1) } := by
      simp only [page_incref]
      rw [if_neg (by simpa using hvalf)]
      rw [if_neg (by simp [hbm2f])]
    have hmpf : map_page canMap newp2 (f * PGSIZE) (PTE2PA (P f))
        (uvm_new_flags (P f) &&&
          (PTE_R ||| PTE_W ||| PTE_X ||| PTE_U ||| PTE_COW)) =
        some (newp2, -1) := by
      simp only [map_page, hdivf]
      rw [if_neg (by simp [Nat.mul_mod_left, hvalf.1])]
      rw [if_pos hcanf]
    have hfreef : free_page { s2 with rc := updI s2.rc (page_index (PTE2PA (P f))) (s2.rc (page_index (PTE2PA (P f))) + 1) } (PTE2PA (P f)) =
        some { s2 with rc := updI (updI s2.rc (page_index (PTE2PA (P f))) (s2.rc (page_index (PTE2PA (P f))) + 1)) (page_index (PTE2PA (P f))) (s2.rc (page_index (PTE2PA (P f)))) } := by
      simp only [free_page]
      rw [if_neg (by simpa using hvalf)]
      rw [if_neg (by simp [hbm2f])]
      have hy := hrc f hf
      rw [if_neg (show ¬(updI s2.rc (page_index (PTE2PA (P f))) (s2.rc (page_index (PTE2PA (P f))) + 1) (page_index (PTE2PA (P f))) ≤ 0) from by simp [updI]; rw [hrc2f]; omega)]
      rw [if_pos (show (0 : Int) < updI s2.rc (page_index (PTE2PA (P f))) (s2.rc (page_index (PTE2PA (P f))) + 1) (page_index (PTE2PA (P f))) - 1 from by simp [updI]; rw [hrc2f]; omega)]
      have hval2 : updI s2.rc (page_index (PTE2PA (P f))) (s2.rc (page_index (PTE2PA (P f))) + 1) (page_index (PTE2PA (P f))) - 1 = s2.rc (page_index (PTE2PA (P f))) := by
        simp [updI]
      rw [hval2]
    have hkk := hrun (npages - f)
    rw [show f + (npages - f) = npages from by omega, Nat.zero_add] at hkk
    have hstepf : uvmcopyLoop canMap old2 newp2 s2 f (npages - f) f =
        uvmcopyErr old2 newp2 { s2 with rc := updI (updI s2.rc (page_index (PTE2PA (P f))) (s2.rc (page_index (PTE2PA (P f))) + 1)) (page_index (PTE2PA (P f))) (s2.rc (page_index (PTE2PA (P f)))) } f := by
      rw [show npages - f = (npages - f - 1) + 1 from by omega]
      simp only [uvmcopyLoop, hwalkf, if_neg (hV f hf), hincf, hmpf]
      norm_num
      simp only [hfreef]
    set s4 : PmmSt := { s2 with rc := updI (updI s2.rc (page_index (PTE2PA (P f))) (s2.rc (page_index (PTE2PA (P f))) + 1)) (page_index (PTE2PA (P f))) (s2.rc (page_index (PTE2PA (P f)))) } with hs4def
    have hs4rc : ∀ q, s4.rc q = s2.rc q := by
      intro q
      simp only [hs4def, updI]
      split
      · rename_i hq
        rw [hq]
      · rfl
    have hs4bm : ∀ q, s4.bitmap q = s2.bitmap q := fun q => rfl
    have hmaskf : (PTE_R ||| PTE_W ||| PTE_X ||| PTE_U ||| PTE_COW) < 1024 := by
      decide
    obtain ⟨newp3, s5, hunmaprun, hzero, hnout, hbm5, hrcdec, hrckeep⟩ :=
      uvmunmapLoop_spec (fun i => page_index (PTE2PA (P i))) f 0 newp2 s4
        hmaxf
        (fun i _ h2 => by
          have hne := hin i (by omega) (by omega)
          have hgi : uvm_new_flags (P i) &&&
              (PTE_R ||| PTE_W ||| PTE_X ||| PTE_U ||| PTE_COW) < 1024 :=
            lt_of_le_of_lt Nat.and_le_right hmaskf
          have hpaeq : PTE2PA (PA2PTE (PTE2PA (P i)) |||
              (uvm_new_flags (P i) &&&
                (PTE_R ||| PTE_W ||| PTE_X ||| PTE_U ||| PTE_COW)) ||| PTE_V) =
              PTE2PA (P i) :=
            child_pte_PA _ hgi (hvalid i (by omega)).1
          refine ⟨_, hne.1, child_pte_V _ _, ?_, ?_, ?_, ?_⟩
          · rw [hpaeq]; exact hvalid i (by omega)
          · rw [hpaeq]
          · rw [hs4bm, hbmeq]; exact hbm i (by omega)
          · rw [hs4rc, hrcin i (by omega) (by omega)]
            have := hrc i (by omega)
            omega)
        (fun i j _ h2 _ h4 hne => hdist i j (by omega) (by omega) hne)
    obtain ⟨old3, hrevrun, hrevout, hrevin⟩ :=
      uvmcopyRevert_spec s5 f 0 old2
        hmaxf
        (fun i _ h2 pte hpte hcow => by
          by_cases hc : cow_candidate (P i)
          · have hq := (hin i (by omega) (by omega)).2.1 hc
            rw [hq] at hpte
            injection hpte with hpte
            subst hpte
            have hperm : uvm_new_flags (P i) ||| PTE_V < 1024 := by
              have h1 : uvm_new_flags (P i) < 2 ^ 10 := by
                have := uvm_new_flags_lt (P i)
                norm_num
                exact this
              have h2 : PTE_V < 2 ^ 10 := by decide
              have h3 := Nat.or_lt_two_pow h1 h2
              norm_num at h3
              exact h3
            rw [PTE2PA_build _ _ hperm (hvalid i (by omega)).1]
            exact hvalid i (by omega)
          · have hq := (hin i (by omega) (by omega)).2.2 (by simpa using hc)
            rw [hq, hold i (by omega)] at hpte
            injection hpte with hpte
            subst hpte
            exact hvalid i (by omega))
    have herr : uvmcopyErr old2 newp2 s4 f = some (old3, newp3, s5, -1) := by
      have hunmap : uvmunmap newp2 s4 0 f = some (newp3, s5) := by
        rw [uvmunmap, if_neg (by simp [Nat.zero_mod]), Nat.zero_div]
        exact hunmaprun
      simp only [uvmcopyErr, hunmap, hrevrun]
    refine ⟨old3, newp3, s5, ?_, ?_, ?_, ?_, ?_, ?_⟩
    · rw [uvmcopy, hnp, hkk, hstepf, herr]
    · intro i hi
      exact hzero i (by omega) (by omega)
    · intro i hi
      rw [hnout i (by omega), (hout i (by omega)).2]
    · intro q
      by_cases hq : ∃ i, i < f ∧ page_index (PTE2PA (P i)) = q
      · obtain ⟨i, hif, hiq⟩ := hq
        rw [← hiq, hrcdec i (by omega) (by omega), hs4rc,
          hrcin i (by omega) (by omega)]
        omega
      · push_neg at hq
        rw [hrckeep q (fun i _ h2 => hq i (by omega)), hs4rc,
          hrcout q (fun i _ h2 => hq i (by omega))]
    · intro q
      rw [hbm5 q, hs4bm, hbmeq]
    · intro i hinp
      have hge : f ≤ i → old3 i = old i := by
        intro hfi
        rw [hrevout i (by omega), (hout i (by omega)).1]
      have hperm : uvm_new_flags (P i) ||| PTE_V < 1024 := by
        have h1 : uvm_new_flags (P i) < 2 ^ 10 := by
          have := uvm_new_flags_lt (P i)
          norm_num
          exact this
        have h2 : PTE_V < 2 ^ 10 := by decide
        have h3 := Nat.or_lt_two_pow h1 h2
        norm_num at h3
        exact h3
      have hqpa : PTE2PA (PA2PTE (PTE2PA (P i)) |||
          (uvm_new_flags (P i) ||| PTE_V)) = PTE2PA (P i) :=
        PTE2PA_build _ _ hperm (hvalid i hinp).1
      have hrc5 : i < f → s5.rc (page_index (PTE2PA (P i))) =
          s.rc (page_index (PTE2PA (P i))) := by
        intro hif
        rw [hrcdec i (by omega) (by omega), hs4rc,
          hrcin i (by omega) (by omega)]
        omega
      have hnc0 : cow_candidate (P i) = false → P i &&& PTE_COW = 0 →
          old3 i = old i := by
        intro hc hcow0
        by_cases hfi : f ≤ i
        · exact hge hfi
        · have hq := (hin i (by omega) (by omega)).2.2 hc
          have hq2 : old2 i = some (P i) := by rw [hq]; exact hold i hinp
          have hbr := (hrevin i (by omega) (by omega)).2 (P i) hq2
          rw [hbr.1 hcow0, hold i hinp]
      have hcand_rc1 : i < f → cow_candidate (P i) = true →
          s.rc (page_index (PTE2PA (P i))) = 1 →
          old3 i = some ((P i ||| PTE_W) &&& 0xFFFFFFFFFFFFFEFF) := by
        intro hif hc hrc1
        have hq := (hin i (by omega) (by omega)).2.1 hc
        have hqeq : PA2PTE (PTE2PA (P i)) ||| (uvm_new_flags (P i) ||| PTE_V) =
            (P i &&& 0xFFFFFFFFFFFFFFFB) ||| PTE_COW :=
          cow_parent_pte (hlt i hinp) (hV i hinp) hc
        have hqcow : (PA2PTE (PTE2PA (P i)) |||
            (uvm_new_flags (P i) ||| PTE_V)) &&& PTE_COW ≠ 0 := by
          rw [hqeq]
          exact or_and_self_ne_zero _ _ (by decide)
        have hbr := (hrevin i (by omega) (by omega)).2 _ hq
        have hres := hbr.2.1 hqcow (by rw [hqpa, hrc5 hif]; exact hrc1)
        rw [hres, hqeq, cow_restore_general]
      refine ⟨hge, hnc0, ?_, ?_, ?_, ?_⟩
      · intro hif hcor hrc1
        by_cases hc : cow_candidate (P i)
        · exact hcand_rc1 hif hc hrc1
        · have hcow : P i &&& PTE_COW ≠ 0 := by
            rcases hcor with h | h
            · exact absurd h (by simp [hc])
            · exact h
          have hq := (hin i (by omega) (by omega)).2.2 (by simpa using hc)
          have hq2 : old2 i = some (P i) := by rw [hq]; exact hold i hinp
          have hbr := (hrevin i (by omega) (by omega)).2 (P i) hq2
          exact hbr.2.1 hcow (by rw [hrc5 hif]; exact hrc1)
      · intro hif hc hcow0 hrc1
        rw [hcand_rc1 hif hc hrc1,
          show (P i ||| PTE_W) &&& 0xFFFFFFFFFFFFFEFF = P i from by
            rw [← cow_restore_general (P i)]
            exact cow_parent_restore (hlt i hinp) (cow_candidate_W hc) hcow0,
          hold i hinp]
      · intro hif hc hrcne
        have hq := (hin i (by omega) (by omega)).2.1 hc
        have hqeq : PA2PTE (PTE2PA (P i)) ||| (uvm_new_flags (P i) ||| PTE_V) =
            (P i &&& 0xFFFFFFFFFFFFFFFB) ||| PTE_COW :=
          cow_parent_pte (hlt i hinp) (hV i hinp) hc
        have hqcow : (PA2PTE (PTE2PA (P i)) |||
            (uvm_new_flags (P i) ||| PTE_V)) &&& PTE_COW ≠ 0 := by
          rw [hqeq]
          exact or_and_self_ne_zero _ _ (by decide)
        have hbr := (hrevin i (by omega) (by omega)).2 _ hq
        have hres := hbr.2.2 hqcow (by rw [hqpa, hrc5 hif]; exact hrcne)
        rw [hres, hqeq]
      · intro hif hc hcow hrcne
        have hq := (hin i (by omega) (by omega)).2.2 hc
        have hq2 : old2 i = some (P i) := by rw [hq]; exact hold i hinp
        have hbr := (hrevin i (by omega) (by omega)).2 (P i) hq2
        have hres := hbr.2.2 hcow (by rw [hrc5 hif]; exact hrcne)
        rw [hres, hold i hinp]

theorem claim_C3_uvmcopy_cow_fork_witness :
    (∃ old2 newp2 s2,
      uvmcopy (fun _ => true) uvmDemoOld uvmDemoNew uvmDemoPmm (2 * PGSIZE) =
        some (old2, newp2, s2, 0)) ∧
    (∃ old2 newp2 s2,
      uvmcopy (fun i => decide (i = 0)) uvmDemoOld uvmDemoNew uvmDemoPmm
          (2 * PGSIZE) =
        some (old2, newp2, s2, -1)) := by
  constructor
  · obtain ⟨a, b, c, h, -, -⟩ :=
      (claim_C3_uvmcopy_cow_fork (fun _ => true) uvmDemoP 2 1
        uvmDemoOld uvmDemoNew uvmDemoPmm
        (by decide)
        (by intro i hi; interval_cases i <;> decide)
        (by intro i hi; interval_cases i <;> decide)
        (by intro i hi; interval_cases i <;> decide)
        (by intro i hi; interval_cases i <;> decide)
        (by intro i hi; interval_cases i <;> decide)
        (by intro i hi; interval_cases i <;> decide)
        (by intro i hi; interval_cases i <;> decide)
        (by
          intro i j hi hj hne
          interval_cases i <;> interval_cases j
          · exact absurd rfl hne
          · decide
          · decide
          · exact absurd rfl hne)).1
        (fun i _ => rfl)
    exact ⟨a, b, c, h⟩
  · obtain ⟨a, b, c, h, -, -, -, -, -⟩ :=
      (claim_C3_uvmcopy_cow_fork (fun i => decide (i = 0)) uvmDemoP 2 1
        uvmDemoOld uvmDemoNew uvmDemoPmm
        (by decide)
        (by intro i hi; interval_cases i <;> decide)
        (by intro i hi; interval_cases i <;> decide)
        (by intro i hi; interval_cases i <;> decide)
        (by intro i hi; interval_cases i <;> decide)
        (by intro i hi; interval_cases i <;> decide)
        (by intro i hi; interval_cases i <;> decide)
        (by intro i hi; interval_cases i <;> decide)
        (by
          intro i j hi hj hne
          interval_cases i <;> interval_cases j
          · exact absurd rfl hne
          · decide
          · decide
          · exact absurd rfl hne)).2
        (by decide) (by intro i hi; interval_cases i <;> decide) (by decide)
    exact ⟨a, b, c, h⟩

/-! ### C1: the trap handler has no COW page-fault branch -/

/-- A user page table with one valid, user-accessible, COW-marked page at
virtual page 1 (flags `V|R|U|COW` = 275), backed by frame 5. -/
def cowDemoPT : PTab :=
  fun i => if i = 1 then some (PA2PTE 0x80005000 ||| 275) else none

/-- Frame 5 allocated with refcount 2 (parent and child after a fork);
every other frame free. -/
def cowDemoPmm : PmmSt :=
  { bitmap := fun q => decide (q = 5)
    rc := fun q => if q = 5 then 2 else 0
    freeCount := 1 }

/-- C1, code bug: `usertrap` dispatches only on `scause == 8` (syscall) and
on the interrupt bit; every synchronous exception — including a store page
fault (scause 15) or load page fault (scause 13) on a valid, user,
COW-marked page — falls through to the diagnostic branch that sets
`p->killed = 1`.  The handler never calls `cow_resolve`, even though
`cow_resolve` itself succeeds on exactly such a page (third conjunct), so
a child write into a COW page kills the process instead of completing. -/
theorem claim_C1_usertrap_no_cow_branch :
    usertrap_step 15 false = (true, UserTrapAction.markKilled) ∧
    usertrap_step 13 false = (true, UserTrapAction.markKilled) ∧
    ∃ pt2 s2, cow_resolve cowDemoPT cowDemoPmm 0x1234 = some ((pt2, s2), 0) := by
  refine ⟨by decide, by decide, ⟨_, _, rfl⟩⟩

/-! ### C9: `dirlookup` / `dirlink` and the in-memory inode table (fs.c / part_012)

A directory is its device number, its inode type and its list of 16-byte
directory entries (`de.inum = 0` marks a free slot).  The in-memory inode
table `itable.inode[NINODE]` is a list of slots carrying `dev`, `inum`,
`ref` and `valid`. -/

structure Dirent where
  inum : Nat
  name : String
deriving DecidableEq

structure DirInode where
  dev : Nat
  type : Nat
  entries : List Dirent
deriving DecidableEq

structure MInode where
  dev : Nat
  inum : Nat
  ref : Nat
  valid : Bool
deriving DecidableEq

/-- Replace the `j`-th element of a list in place. -/
def updNth (f : MInode → MInode) : Nat → List MInode → List MInode
  | _, [] => []
  | 0, e :: rest => f e :: rest
  | n + 1, e :: rest => e :: updNth f n rest

/-- `iget(dev, inum)`: one scan of the inode table; the first slot with
`ref > 0` and matching `dev`/`inum` gets `ref++`; otherwise the first slot
with `ref == 0` is (lazily) initialised with `ref = 1`; with no match and
no empty slot it panics (`none`).  Also returns the slot index. -/
def iget (dev inum : Nat) (it : List MInode) : Option (List MInode × Nat) :=
  match List.findIdx? (fun e => decide (0 < e.ref ∧ e.dev = dev ∧ e.inum = inum)) it with
  | some j => some (updNth (fun e => { e with ref := e.ref + 1 }) j it, j)
  | none =>
    match List.findIdx? (fun e => decide (e.ref = 0)) it with
    | some j => some (updNth (fun _ => ⟨dev, inum, 1, false⟩) j it, j)
    | none => none

/-- The scan of `dirlookup`: skip free slots (`inum == 0`), and on the
first name match call `iget` and report the slot index and the entry's
byte offset.  `some (it, none)` is C's `return 0` (not found): the inode
table is left untouched. -/
def dirlookupLoop (it : List MInode) (dev : Nat) (name : String) :
    List Dirent → Nat → Option (List MInode × Option (Nat × Nat))
  | [], _ => some (it, none)
  | de :: rest, off =>
    if de.inum = 0 then dirlookupLoop it dev name rest (off + 16)
    else if de.name = name then
      match iget dev de.inum it with
      | none => none
      | some (it2, j) => some (it2, some (j, off))
    else dirlookupLoop it dev name rest (off + 16)

/-- `dirlookup(dp, name, poff)`: panics unless `dp` is a directory. -/
def dirlookup (it : List MInode) (dp : DirInode) (name : String) :
    Option (List MInode × Option (Nat × Nat)) :=
  if dp.type ≠ T_DIR then none
  else dirlookupLoop it dp.dev name dp.entries 0

/-- The slot-search-and-write of `dirlink`: overwrite the first free slot,
or append at the end of the directory. -/
def dirlinkInsert : List Dirent → Dirent → List Dirent
  | [], de => [de]
  | d :: rest, de => if d.inum = 0 then de :: rest else d :: dirlinkInsert rest de

/-- `dirlink(dp, name, inum)`: if `dirlookup` finds `name`, return `-1`
directly — without `iput`-ing the inode reference `dirlookup` just took;
otherwise write a fresh entry (name truncated to `DIRSIZ - 1` bytes) into
the first free slot or at the end, and return 0. -/
def dirlink (it : List MInode) (dp : DirInode) (name : String) (inum : Nat) :
    Option (List MInode × DirInode × Int) :=
  match dirlookup it dp name with
  | none => none
  | some (it2, some _) => some (it2, dp, -1)
  | some (it2, none) =>
    some (it2, { dp with entries := dirlinkInsert dp.entries ⟨inum, name.take (DIRSIZ - 1)⟩ }, 0)

/-- `dirlookupLoop` walks past a prefix of entries none of which matches. -/
theorem dirlookupLoop_skip (it : List MInode) (dev : Nat) (name : String) :
    ∀ (pre rest : List Dirent) (off : Nat),
      (∀ d ∈ pre, d.inum = 0 ∨ ¬ d.name = name) →
      dirlookupLoop it dev name (pre ++ rest) off =
        dirlookupLoop it dev name rest (off + 16 * pre.length) := by
  intro pre
  induction pre with
  | nil =>
    intro rest off _
    simp [dirlookupLoop]
  | cons d pre2 ih =>
    intro rest off hpre
    rw [List.cons_append]
    show dirlookupLoop it dev name (d :: (pre2 ++ rest)) off = _
    by_cases h0 : d.inum = 0
    · rw [dirlookupLoop, if_pos h0,
        ih rest (off + 16) (fun d2 hd2 => hpre d2 (by simp [hd2]))]
      congr 1
      simp [List.length_cons]
      ring
    · have hn : ¬ d.name = name := by
        rcases hpre d (by simp) with h | h
        · exact absurd h h0
        · exact h
      rw [dirlookupLoop, if_neg h0, if_neg hn,
        ih rest (off + 16) (fun d2 hd2 => hpre d2 (by simp [hd2]))]
      congr 1
      simp [List.length_cons]
      ring

/-- C9: when `dirlink(dp, name, inum)` finds that `name` already exists in
directory `dp` (first match `de` after a non-matching prefix, with the
target inode cached in the table at slot `j`), it returns `-1` and leaves
the directory unchanged — but the in-memory reference count of the
existing entry's inode, taken by the internal `dirlookup`/`iget` call, has
been incremented and is never released by `dirlink`. -/
theorem claim_C9_dirlink_duplicate_leaks_ref
    (it : List MInode) (dp : DirInode) (name : String) (inum : Nat)
    (pre post : List Dirent) (de : Dirent) (j : Nat)
    (hdir : dp.type = T_DIR)
    (hsplit : dp.entries = pre ++ de :: post)
    (hpre : ∀ d ∈ pre, d.inum = 0 ∨ ¬ d.name = name)
    (hde0 : de.inum ≠ 0) (hden : de.name = name)
    (hj : List.findIdx?
        (fun e => decide (0 < e.ref ∧ e.dev = dp.dev ∧ e.inum = de.inum)) it =
      some j) :
    dirlink it dp name inum =
      some (updNth (fun e => { e with ref := e.ref + 1 }) j it, dp, -1) := by
  rw [dirlink, dirlookup, if_neg (by simp [hdir]), hsplit,
    dirlookupLoop_skip it dp.dev name pre (de :: post) 0 hpre]
  rw [dirlookupLoop, if_neg hde0, if_pos hden, iget, hj]

/-! ### C4: `sys_unlink` (sysfile.c / part_002)

`sys_unlink` is modelled from the point where `nameiparent` has resolved
the parent directory and the final path element: the file system state is
a map from inode numbers to inodes (type, link count, and — for a
directory — its list of 16-byte entries). -/

structure FsInode where
  type : Nat
  nlink : Int
  entries : List Dirent

def updItab (st : Nat → FsInode) (i : Nat) (v : FsInode) : Nat → FsInode :=
  fun j => if j = i then v else st j

/-- The scan of `dirlookup(dp, name, &off)` as `sys_unlink` consumes it:
the matched entry's inode number and its byte offset in the directory
(free slots with `inum == 0` are skipped). -/
def dirlookupOff : List Dirent → String → Nat → Option (Nat × Nat)
  | [], _, _ => none
  | de :: rest, name, off =>
    if de.inum = 0 then dirlookupOff rest name (off + 16)
    else if de.name = name then some (de.inum, off)
    else dirlookupOff rest name (off + 16)

/-- `is_special_dirname`: the final path element is `.` or `..`. -/
def is_special_dirname (name : String) : Bool :=
  name = "." ∨ name = ".."

/-- `isdirempty`: every entry from byte offset `2*sizeof(de)` on is free. -/
def isdirempty (ip : FsInode) : Bool :=
  (ip.entries.drop 2).all (fun de => de.inum == 0)

/-- Zero the 16-byte directory entry at a given slot (`memset` + `writei`
clears `inum` to 0 and the name bytes to NUL). -/
def setEntry : List Dirent → Nat → Dirent → List Dirent
  | [], _, _ => []
  | _ :: rest, 0, de => de :: rest
  | d :: rest, n + 1, de => d :: setEntry rest n de

/-- `sys_unlink` after path resolution: reject `.`/`..`, a missing target,
and a non-empty directory; panic (`none`) when the target's link count is
already below 1; otherwise zero the target's directory entry in the
parent, drop the parent's link when the target is a directory, drop the
target's link, and return 0. -/
def sys_unlink (st : Nat → FsInode) (dpi : Nat) (name : String) :
    Option ((Nat → FsInode) × Int) :=
  if is_special_dirname name then some (st, -1)
  else
    match dirlookupOff (st dpi).entries name 0 with
    | none => some (st, -1)
    | some (inum, off) =>
      if (st inum).nlink < 1 then none
      else if (st inum).type = T_DIR ∧ isdirempty (st inum) = false then
        some (st, -1)
      else
        let st1 := updItab st dpi
          { st dpi with entries := setEntry (st dpi).entries (off / 16) ⟨0, ""⟩ }
        let st2 := if (st inum).type = T_DIR then
            updItab st1 dpi { st1 dpi with nlink := (st1 dpi).nlink - 1 }
          else st1
        let st3 := updItab st2 inum { st2 inum with nlink := (st2 inum).nlink - 1 }
        some (st3, 0)

/-- C4: `sys_unlink` returns a negative value when the last path element
is `.` or `..`, when the target does not exist, and when the target is a
directory with a non-free entry past its first two slots; otherwise it
zeroes the target's 16-byte directory entry in the parent, decrements the
target inode's nlink (and additionally the parent's nlink when the target
is a directory), and returns 0. -/
theorem claim_C4_sys_unlink (st : Nat → FsInode) (dpi : Nat) (name : String)
    (inum off : Nat)
    (hsp : is_special_dirname name = false)
    (hfound : dirlookupOff (st dpi).entries name 0 = some (inum, off))
    (hnl : 1 ≤ (st inum).nlink)
    (hne : inum ≠ dpi) :
    (∀ nm, is_special_dirname nm = true → sys_unlink st dpi nm = some (st, -1)) ∧
    (∀ nm, is_special_dirname nm = false →
      dirlookupOff (st dpi).entries nm 0 = none →
      sys_unlink st dpi nm = some (st, -1)) ∧
    ((st inum).type = T_DIR → isdirempty (st inum) = false →
      sys_unlink st dpi name = some (st, -1)) ∧
    ((st inum).type ≠ T_DIR →
      sys_unlink st dpi name =
        some (updItab (updItab st dpi
            { st dpi with entries := setEntry (st dpi).entries (off / 16) ⟨0, ""⟩ })
          inum { st inum with nlink := (st inum).nlink - 1 }, 0)) ∧
    ((st inum).type = T_DIR → isdirempty (st inum) = true →
      sys_unlink st dpi name =
        some (updItab (updItab st dpi
            { type := (st dpi).type, nlink := (st dpi).nlink - 1,
              entries := setEntry (st dpi).entries (off / 16) ⟨0, ""⟩ })
          inum { st inum with nlink := (st inum).nlink - 1 }, 0)) := by
  refine ⟨?_, ?_, ?_, ?_, ?_⟩
  · intro nm hnm
    rw [sys_unlink, if_pos hnm]
  · intro nm hnm hnone
    rw [sys_unlink, if_neg (by simp [hnm]), hnone]
  · intro hdir hne2
    rw [sys_unlink, if_neg (by simp [hsp]), hfound]
    simp only []
    rw [if_neg (by omega), if_pos ⟨hdir, hne2⟩]
  · intro hnd
    rw [sys_unlink, if_neg (by simp [hsp]), hfound]
    simp only []
    rw [if_neg (by omega), if_neg (by simp [hnd])]
    simp only [if_neg hnd]
    have h1 : updItab st dpi { st dpi with entries := setEntry (st dpi).entries (off / 16) ⟨0, ""⟩ } inum = st inum := by
      rw [updItab, if_neg hne]
    rw [h1]
  · intro hdir hemp
    rw [sys_unlink, if_neg (by simp [hsp]), hfound]
    simp only []
    rw [if_neg (by omega), if_neg (by simp [hemp])]
    simp only [if_pos hdir]
    have h1 : updItab st dpi { st dpi with entries := setEntry (st dpi).entries (off / 16) ⟨0, ""⟩ } dpi = { st dpi with entries := setEntry (st dpi).entries (off / 16) ⟨0, ""⟩ } := by
      rw [updItab, if_pos rfl]
    have h2 : ∀ v, updItab (updItab st dpi { st dpi with entries := setEntry (st dpi).entries (off / 16) ⟨0, ""⟩ }) dpi v inum = st inum := by
      intro v
      rw [updItab, if_neg hne, updItab, if_neg hne]
    rw [h1, h2]
    have h3 : updItab (updItab st dpi { st dpi with entries := setEntry (st dpi).entries (off / 16) ⟨0, ""⟩ }) dpi { type := (st dpi).type, nlink := (st dpi).nlink - 1, entries := setEntry (st dpi).entries (off / 16) ⟨0, ""⟩ } = updItab st dpi { type := (st dpi).type, nlink := (st dpi).nlink - 1, entries := setEntry (st dpi).entries (off / 16) ⟨0, ""⟩ } := by
      funext j
      rw [updItab, updItab, updItab]
      split
      · rfl
      · rfl
    rw [h3]

/-- Root directory (inode 1) holding `.`/`..` and a regular file `a` at
inode 7; deleting `a` exercises the success path of `sys_unlink`. -/
def unlinkDemoSt : Nat → FsInode := fun i =>
  if i = 1 then ⟨T_DIR, 1, [⟨1, "."⟩, ⟨1, ".."⟩, ⟨7, "a"⟩]⟩
  else if i = 7 then ⟨T_FILE, 1, []⟩
  else ⟨0, 0, []⟩

theorem claim_C4_sys_unlink_witness :
    sys_unlink unlinkDemoSt 1 "a" =
      some (updItab (updItab unlinkDemoSt 1 { unlinkDemoSt 1 with entries := setEntry (unlinkDemoSt 1).entries (32 / 16) ⟨0, ""⟩ }) 7 { unlinkDemoSt 7 with nlink := (unlinkDemoSt 7).nlink - 1 }, 0) :=
  (claim_C4_sys_unlink unlinkDemoSt 1 "a" 7 32 (by decide) (by decide)
    (by decide) (by decide)).2.2.2.1 (by decide)

/-! ### C7: path resolution and symlink depth (fs.c / part_012)

`namex_from(ip, path, nameiparent, name, depth)` is modelled with paths
as lists of components (`skipelem` peels the head) and each inode carrying
its type, its directory entries, and — for a symlink — its target as an
absolute-flag plus component list (`build_symlink_path` prepends the
target's components to the remaining path).  The definition is accepted by
Lean's termination checker with the measure
`(MAX_SYMLINK_DEPTH + 1 - depth, path.length)`: each symlink expansion
strictly increases `depth` (bounded by the `depth >= MAX_SYMLINK_DEPTH`
failure check) and each ordinary step shortens the path, which is the
claim's termination argument. -/

def ROOTINO : Nat := 1

structure NxInode where
  type : Nat
  entries : List Dirent
  target : Bool × List String

/-- `namex_from`: walk the path; a component that is not found, or a
lookup inside a non-directory, returns null (`none`); `nameiparent` stops
one component early; a symlink (outside the `nameiparent`-final case,
which returned already) is expanded — from the root for an absolute
target, from the parent directory otherwise — with `depth + 1`, failing
outright when `depth ≥ MAX_SYMLINK_DEPTH`. -/
def namex_from (st : Nat → NxInode) :
    Nat → List String → Bool → Nat → Option Nat
  | ip, [], np, _ => if np then none else some ip
  | ip, elem :: rest, np, depth =>
    if (st ip).type ≠ T_DIR then none
    else if np ∧ rest = [] then some ip
    else
      match dirlookupOff (st ip).entries elem 0 with
      | none => none
      | some (next, _) =>
        if (st next).type = T_SYMLINK then
          if MAX_SYMLINK_DEPTH ≤ depth then none
          else if (st next).target.1 then
            namex_from st ROOTINO ((st next).target.2 ++ rest) np (depth + 1)
          else
            namex_from st ip ((st next).target.2 ++ rest) np (depth + 1)
        else
          namex_from st next rest np depth
termination_by _ip path _np depth => (MAX_SYMLINK_DEPTH + 1 - depth, path.length)
decreasing_by
  · apply Prod.Lex.left
    simp only [MAX_SYMLINK_DEPTH] at *
    omega
  · apply Prod.Lex.left
    simp only [MAX_SYMLINK_DEPTH] at *
    omega
  · apply Prod.Lex.right
    simp

/-- `namex(path, 0, 0)` on an absolute path starts at the root inode with
depth 0. -/
def namex (st : Nat → NxInode) (path : List String) (np : Bool) : Option Nat :=
  namex_from st ROOTINO path np 0

/-- A root directory holding a chain of nine symlinks `l1 → l2 → … → l9 → t`
(inodes 11–19), a self-referential symlink `c` (inode 20), and a regular
file `t` (inode 30). -/
def nxDemoSt : Nat → NxInode := fun i =>
  if i = 1 then
    ⟨T_DIR, [⟨11, "l1"⟩, ⟨12, "l2"⟩, ⟨13, "l3"⟩, ⟨14, "l4"⟩, ⟨15, "l5"⟩,
      ⟨16, "l6"⟩, ⟨17, "l7"⟩, ⟨18, "l8"⟩, ⟨19, "l9"⟩, ⟨20, "c"⟩, ⟨30, "t"⟩],
      (false, [])⟩
  else if i = 11 then ⟨T_SYMLINK, [], (true, ["l2"])⟩
  else if i = 12 then ⟨T_SYMLINK, [], (true, ["l3"])⟩
  else if i = 13 then ⟨T_SYMLINK, [], (true, ["l4"])⟩
  else if i = 14 then ⟨T_SYMLINK, [], (true, ["l5"])⟩
  else if i = 15 then ⟨T_SYMLINK, [], (true, ["l6"])⟩
  else if i = 16 then ⟨T_SYMLINK, [], (true, ["l7"])⟩
  else if i = 17 then ⟨T_SYMLINK, [], (true, ["l8"])⟩
  else if i = 18 then ⟨T_SYMLINK, [], (true, ["l9"])⟩
  else if i = 19 then ⟨T_SYMLINK, [], (true, ["t"])⟩
  else if i = 20 then ⟨T_SYMLINK, [], (true, ["c"])⟩
  else if i = 30 then ⟨T_FILE, [], (false, [])⟩
  else ⟨0, [], (false, [])⟩

/-- C7: `namex` fails as soon as a symlink would be expanded at depth
`MAX_SYMLINK_DEPTH` = 8 (first conjunct, for every file system and path);
opening the first link of a chain of 9 symlinks each pointing to the next
fails; opening the third (a chain of 7) resolves to the target inode 30;
and resolution of a cyclic symlink terminates with failure. -/
theorem claim_C7_namex_symlink_depth :
    (∀ (st : Nat → NxInode) (ip : Nat) (elem : String) (rest : List String)
      (np : Bool) (depth next off : Nat),
      (st ip).type = T_DIR →
      ¬(np = true ∧ rest = []) →
      dirlookupOff (st ip).entries elem 0 = some (next, off) →
      (st next).type = T_SYMLINK →
      MAX_SYMLINK_DEPTH ≤ depth →
      namex_from st ip (elem :: rest) np depth = none) ∧
    namex nxDemoSt ["l1"] false = none ∧
    namex nxDemoSt ["l3"] false = some 30 ∧
    namex nxDemoSt ["c"] false = none := by
  refine ⟨?_, ?_, ?_, ?_⟩
  · intro st ip elem rest np depth next off hdir hnp hlook hsym hdepth
    rw [namex_from, if_neg (by simp [hdir]), if_neg (by simpa using hnp), hlook]
    simp only []
    rw [if_pos hsym, if_pos hdepth]
  · simp [namex, namex_from, nxDemoSt, dirlookupOff, MAX_SYMLINK_DEPTH, ROOTINO, T_DIR, T_FILE, T_SYMLINK]
  · simp [namex, namex_from, nxDemoSt, dirlookupOff, MAX_SYMLINK_DEPTH, ROOTINO, T_DIR, T_FILE, T_SYMLINK]
  · simp [namex, namex_from, nxDemoSt, dirlookupOff, MAX_SYMLINK_DEPTH, ROOTINO, T_DIR, T_FILE, T_SYMLINK]

theorem claim_C9_dirlink_duplicate_leaks_ref_witness :
    dirlink [⟨1, 7, 1, true⟩] ⟨1, T_DIR, [⟨7, "x"⟩]⟩ "x" 9 =
      some ([⟨1, 7, 2, true⟩], ⟨1, T_DIR, [⟨7, "x"⟩]⟩, -1) :=
  claim_C9_dirlink_duplicate_leaks_ref [⟨1, 7, 1, true⟩] ⟨1, T_DIR, [⟨7, "x"⟩]⟩
    "x" 9 [] [⟨7, "x"⟩].tail ⟨7, "x"⟩ 0 rfl rfl (by simp) (by decide) rfl
    (by decide)

/-! ### C8: user-buffer validation on the read/write syscall path
(syscall.c / part_010, vm.c / part_016, fs.c / part_012, file.c)

`copyout` may trigger COW resolution, so it threads the page table and
the allocator state; `copyin` only reads.  `check_user_range` is the
`argaddr`-side validator (`write = false` for the 1-byte probe that
`argaddr` performs on a non-null pointer). -/

def U64 : Nat := 2 ^ 64

def NDIRECT : Nat := 12
def NINDIRECT : Nat := BLOCK_SIZE / 4
def MAX_FILE_SIZE : Nat := (NDIRECT + NINDIRECT + NINDIRECT * NINDIRECT) * BLOCK_SIZE

/-- The page loop of `check_user_range`: fail on a hole, a non-valid or
non-user page, or (when `write`) a non-writable page; panics never arise
because the caller bounded `[start, endv)` below `MAXVA`. -/
def curLoop (pt : PTab) (write : Bool) : Nat → Nat → Option Int
  | start, endv =>
    if _h : start < endv then
      match walk_lookup pt (PGROUNDDOWN start) with
      | none => none
      | some none => some (-1)
      | some (some pte) =>
        if pte &&& PTE_V = 0 ∨ pte &&& PTE_U = 0 then some (-1)
        else if write ∧ pte &&& PTE_W = 0 then some (-1)
        else
          if PGROUNDDOWN start + PGSIZE ≤ start then some (-1)
          else curLoop pt write (min (PGROUNDDOWN start + PGSIZE) endv) endv
    else some 0
termination_by start endv => endv - start
decreasing_by
  simp only [PGROUNDDOWN, PGSIZE] at *
  omega

/-- `check_user_range(addr, size, write)`. -/
def check_user_range (pt : PTab) (addr : Nat) (size : Int) (write : Bool) :
    Option Int :=
  if size < 0 then some (-1)
  else if size = 0 then some 0
  else if addr ≥ MAXVA then some (-1)
  else if (addr + size.toNat) % U64 < addr then some (-1)
  else if (addr + size.toNat) % U64 > MAXVA then some (-1)
  else curLoop pt write addr ((addr + size.toNat) % U64)

/-- `copyout(pagetable, dstva, src, len)`: per destination page, check
valid-and-user, resolve COW when marked, re-check and require `PTE_W`,
then copy up to the page boundary. -/
def copyout : PTab → PmmSt → Nat → Nat → Option (PTab × PmmSt × Int)
  | pt, s, dstva, len =>
    if _h : len = 0 then some (pt, s, 0)
    else
      match walk_lookup pt (PGROUNDDOWN dstva) with
      | none => none
      | some none => some (pt, s, -1)
      | some (some pte) =>
        if pte &&& PTE_V = 0 ∨ pte &&& PTE_U = 0 then some (pt, s, -1)
        else
          match (if pte &&& PTE_COW ≠ 0 then cow_resolve pt s dstva
            else some ((pt, s), 0)) with
          | none => none
          | some ((pt1, s1), rc) =>
            if rc < 0 then some (pt1, s1, -1)
            else
              match walk_lookup pt1 (PGROUNDDOWN dstva) with
              | none => none
              | some none => some (pt1, s1, -1)
              | some (some pte2) =>
                if pte2 &&& PTE_V = 0 ∨ pte2 &&& PTE_U = 0 then some (pt1, s1, -1)
                else if pte2 &&& PTE_W = 0 then some (pt1, s1, -1)
                else
                  copyout pt1 s1
                    (dstva + min (PGSIZE - (dstva - PGROUNDDOWN dstva)) len)
                    (len - min (PGSIZE - (dstva - PGROUNDDOWN dstva)) len)
termination_by _pt _s _dstva len => len
decreasing_by
  simp only [PGROUNDDOWN, PGSIZE] at *
  omega

/-- `copyin(pagetable, dst, srcva, len)`: per source page, require a
valid-and-user mapping (no write bit needed). -/
def copyin (pt : PTab) : Nat → Nat → Option Int
  | srcva, len =>
    if _h : len = 0 then some 0
    else
      match walk_lookup pt (PGROUNDDOWN srcva) with
      | none => none
      | some none => some (-1)
      | some (some pte) =>
        if pte &&& PTE_V = 0 ∨ pte &&& PTE_U = 0 then some (-1)
        else
          copyin pt (srcva + min (PGSIZE - (srcva - PGROUNDDOWN srcva)) len)
            (len - min (PGSIZE - (srcva - PGROUNDDOWN srcva)) len)
termination_by _srcva len => len
decreasing_by
  simp only [PGROUNDDOWN, PGSIZE] at *
  omega

/-- The block loop of `readi` with `user_dst = 1`: `copyout` one block
fragment at a time, failing with −1 as soon as `copyout` does. -/
def readiULoop : PTab → PmmSt → Nat → Nat → Nat → Nat →
    Option (PTab × PmmSt × Int)
  | pt, s, dst, off, n, tot =>
    if _h : tot < n then
      match copyout pt s (dst + tot)
        (min (n - tot) (BLOCK_SIZE - (off + tot) % BLOCK_SIZE)) with
      | none => none
      | some (pt2, s2, r) =>
        if r < 0 then some (pt2, s2, -1)
        else readiULoop pt2 s2 dst off n
          (tot + min (n - tot) (BLOCK_SIZE - (off + tot) % BLOCK_SIZE))
    else some (pt, s, (n : Int))
termination_by _pt _s _dst _off n tot => n - tot
decreasing_by
  simp only [BLOCK_SIZE] at *
  omega

/-- `readi(ip, 1, dst, off, n)`: the user-destination read path. -/
def readiU (pt : PTab) (s : PmmSt) (ip : RInode) (dst off n : Nat) :
    Option (PTab × PmmSt × Int) :=
  if off > ip.size ∨ (off + n) % U32 < off then some (pt, s, -1)
  else readiULoop pt s dst off (min n (ip.size - off)) 0

/-- `sys_read` on an `FD_INODE` file after `argfd` has validated the
descriptor: `argaddr(1, &addr)` probes one byte of a non-null buffer for
readability, then `fileread` runs `readi(ip, 1, addr, f->off, n)`. -/
def sys_read_inode (pt : PTab) (s : PmmSt) (ip : RInode) (foff addr n : Nat) :
    Option (PTab × PmmSt × Int) :=
  if addr ≠ 0 then
    match check_user_range pt addr 1 false with
    | none => none
    | some r =>
      if r < 0 then some (pt, s, -1)
      else readiU pt s ip addr foff n
  else readiU pt s ip addr foff n

/-- The block loop of `writei` with `user_src = 1`. -/
def writeiULoop (pt : PTab) : Nat → Nat → Nat → Nat → Option Int
  | src, off, n, tot =>
    if _h : tot < n then
      match copyin pt (src + tot)
        (min (n - tot) (BLOCK_SIZE - (off + tot) % BLOCK_SIZE)) with
      | none => none
      | some r =>
        if r < 0 then some (-1)
        else writeiULoop pt src off n
          (tot + min (n - tot) (BLOCK_SIZE - (off + tot) % BLOCK_SIZE))
    else some (n : Int)
termination_by _src _off n tot => n - tot
decreasing_by
  simp only [BLOCK_SIZE] at *
  omega

/-- `writei(ip, 1, src, off, n)`: the user-source write path (block
allocation and logging are orthogonal to the buffer checks). -/
def writeiU (pt : PTab) (ip : RInode) (src off n : Nat) : Option Int :=
  if off > ip.size ∨ (off + n) % U32 < off then some (-1)
  else if off + n > MAX_FILE_SIZE then some (-1)
  else writeiULoop pt src off n 0

theorem PGROUNDDOWN_le (a : Nat) : PGROUNDDOWN a ≤ a := by
  rw [PGROUNDDOWN]
  exact Nat.div_mul_le_self a PGSIZE

theorem PGROUNDDOWN_div (a : Nat) : PGROUNDDOWN a / PGSIZE = a / PGSIZE := by
  rw [PGROUNDDOWN, Nat.mul_div_cancel _ (by decide : 0 < PGSIZE)]

theorem lt_PGROUNDDOWN_add (a : Nat) : a < PGROUNDDOWN a + PGSIZE := by
  rw [PGROUNDDOWN, show PGSIZE = 4096 from rfl]
  omega

/-- One readable-page step of `curLoop` on a 1-byte probe. -/
theorem curLoop_probe_ok (pt : PTab) (addr : Nat) (pte : Nat)
    (hmv : addr < MAXVA)
    (hpt : pt (addr / PGSIZE) = some pte)
    (hV : pte &&& PTE_V ≠ 0) (hU : pte &&& PTE_U ≠ 0) :
    curLoop pt false addr (addr + 1) = some 0 := by
  rw [curLoop, dif_pos (by omega)]
  rw [walk_lookup, if_neg (by push_neg; exact lt_of_le_of_lt (PGROUNDDOWN_le addr) hmv),
    PGROUNDDOWN_div, hpt]
  simp only []
  rw [if_neg (by simp [hV, hU])]
  rw [if_neg (by simp)]
  rw [if_neg (by have := lt_PGROUNDDOWN_add addr; omega)]
  have hmin : min (PGROUNDDOWN addr + PGSIZE) (addr + 1) = addr + 1 := by
    have := lt_PGROUNDDOWN_add addr
    omega
  rw [hmin, curLoop, dif_neg (by omega)]

/-- One bad-page step of `curLoop` on a 1-byte probe. -/
theorem curLoop_probe_bad (pt : PTab) (addr : Nat)
    (hmv : addr < MAXVA)
    (hbad : pt (addr / PGSIZE) = none ∨
      ∃ pte, pt (addr / PGSIZE) = some pte ∧
        (pte &&& PTE_V = 0 ∨ pte &&& PTE_U = 0)) :
    curLoop pt false addr (addr + 1) = some (-1) := by
  rw [curLoop, dif_pos (by omega)]
  rw [walk_lookup, if_neg (by push_neg; exact lt_of_le_of_lt (PGROUNDDOWN_le addr) hmv),
    PGROUNDDOWN_div]
  rcases hbad with hnone | ⟨pte, hpte, hVU⟩
  · rw [hnone]
  · rw [hpte]
    simp only []
    rw [if_pos (by rcases hVU with h | h; exact Or.inl h; exact Or.inr h)]

/-- `check_user_range` on the 1-byte probe `argaddr` performs. -/
theorem check_user_range_probe (pt : PTab) (addr : Nat) (hmv : addr < MAXVA) :
    check_user_range pt addr 1 false = curLoop pt false addr (addr + 1) := by
  rw [check_user_range]
  rw [if_neg (by norm_num), if_neg (by norm_num), if_neg (by push_neg; omega)]
  have hmod : (addr + (1 : Int).toNat) % U64 = addr + 1 := by
    rw [show ((1 : Int)).toNat = 1 from rfl]
    exact Nat.mod_eq_of_lt (by
      have hm : MAXVA = 2 ^ 38 := rfl
      have hu : U64 = 2 ^ 64 := rfl
      rw [hu]; rw [hm] at hmv; omega)
  rw [hmod] at *
  rw [if_neg (by omega)]
  rw [if_neg (by push_neg
                 have hm : MAXVA = 2 ^ 38 := rfl
                 rw [hm] at hmv ⊢
                 omega)]

/-- C8 (corrected): a user-buffer range reaching `MAXVA` or beyond is
rejected by `check_user_range`; a read syscall whose buffer page is
unmapped, non-valid or non-user fails with −1 at `argaddr`'s probe; a
read syscall with at least one byte to transfer whose buffer page is
readable but neither writable nor COW fails with −1 inside `copyout`; and
the write syscall's source-buffer checks in `copyin`/`writei` fail with −1
on a bad page.  In every case the result is `some _`: no panic.  (The
original claim is corrected by `claim_C8_counterexample`: a read whose
EOF-clamped length is zero returns 0, not a negative value, even though
its buffer is invalid for writing.) -/
theorem claim_C8_user_buffer_checks
    (pt : PTab) (s : PmmSt) (ip : RInode) (addr n foff : Nat)
    (hmv : addr < MAXVA) :
    (∀ (size : Int) (w : Bool), 0 < size → size < 2 ^ 31 →
      MAXVA < addr + size.toNat →
      check_user_range pt addr size w = some (-1)) ∧
    (addr ≠ 0 →
      (pt (addr / PGSIZE) = none ∨
        ∃ pte, pt (addr / PGSIZE) = some pte ∧
          (pte &&& PTE_V = 0 ∨ pte &&& PTE_U = 0)) →
      sys_read_inode pt s ip foff addr n = some (pt, s, -1)) ∧
    (∀ pte, addr ≠ 0 →
      pt (addr / PGSIZE) = some pte →
      pte &&& PTE_V ≠ 0 → pte &&& PTE_U ≠ 0 →
      pte &&& PTE_W = 0 → pte &&& PTE_COW = 0 →
      foff < ip.size → 1 ≤ n → foff + n < U32 →
      sys_read_inode pt s ip foff addr n = some (pt, s, -1)) ∧
    (∀ len, len ≠ 0 →
      (pt (addr / PGSIZE) = none ∨
        ∃ pte, pt (addr / PGSIZE) = some pte ∧
          (pte &&& PTE_V = 0 ∨ pte &&& PTE_U = 0)) →
      copyin pt addr len = some (-1)) ∧
    ((pt (addr / PGSIZE) = none ∨
        ∃ pte, pt (addr / PGSIZE) = some pte ∧
          (pte &&& PTE_V = 0 ∨ pte &&& PTE_U = 0)) →
      foff ≤ ip.size → 1 ≤ n → foff + n < U32 → foff + n ≤ MAX_FILE_SIZE →
      writeiU pt ip addr foff n = some (-1)) := by
  have hm38 : MAXVA = 2 ^ 38 := rfl
  have hu64 : U64 = 2 ^ 64 := rfl
  have hcopyin_bad : ∀ len, len ≠ 0 →
      (pt (addr / PGSIZE) = none ∨
        ∃ pte, pt (addr / PGSIZE) = some pte ∧
          (pte &&& PTE_V = 0 ∨ pte &&& PTE_U = 0)) →
      copyin pt addr len = some (-1) := by
    intro len hlen hbad
    rw [copyin, dif_neg hlen]
    rw [walk_lookup,
      if_neg (by push_neg; exact lt_of_le_of_lt (PGROUNDDOWN_le addr) hmv),
      PGROUNDDOWN_div]
    rcases hbad with hnone | ⟨pte, hpte, hVU⟩
    · rw [hnone]
    · rw [hpte]
      simp only []
      rw [if_pos (by rcases hVU with h | h; exact Or.inl h; exact Or.inr h)]
  refine ⟨?_, ?_, ?_, hcopyin_bad, ?_⟩
  · intro size w hpos hsmall hover
    rw [check_user_range]
    rw [if_neg (by omega), if_neg (by omega)]
    by_cases hge : addr ≥ MAXVA
    · rw [if_pos hge]
    · rw [if_neg hge]
      have htn : 1 ≤ size.toNat ∧ size.toNat < 2 ^ 31 := by omega
      have hmod : (addr + size.toNat) % U64 = addr + size.toNat := by
        apply Nat.mod_eq_of_lt
        rw [hu64]
        rw [hm38] at hmv
        push_neg at hge
        omega
      rw [hmod, if_neg (by omega), if_pos (by omega)]
  · intro h0 hbad
    rw [sys_read_inode, if_pos h0, check_user_range_probe pt addr hmv,
      curLoop_probe_bad pt addr hmv hbad]
    simp only []
    rw [if_pos (by norm_num)]
  · intro pte h0 hpte hV hU hW hC hoff hn hnov
    rw [sys_read_inode, if_pos h0, check_user_range_probe pt addr hmv,
      curLoop_probe_ok pt addr pte hmv hpte hV hU]
    simp only []
    rw [if_neg (by norm_num)]
    rw [readiU, if_neg ?_]
    · have hm1 : 1 ≤ min n (ip.size - foff) := by omega
      rw [readiULoop, dif_pos (by omega)]
      have hm2 : min (min n (ip.size - foff) - 0)
          (BLOCK_SIZE - (foff + 0) % BLOCK_SIZE) ≠ 0 := by
        have hb : BLOCK_SIZE = 4096 := rfl
        rw [hb]
        omega
      rw [copyout, dif_neg hm2]
      rw [walk_lookup,
        if_neg (by
          push_neg
          have := PGROUNDDOWN_le (addr + 0)
          omega),
        PGROUNDDOWN_div, show addr + 0 = addr from rfl, hpte]
      simp only []
      rw [if_neg (by simp [hV, hU])]
      rw [if_neg (by simp [hC])]
      simp only []
      rw [if_neg (by norm_num)]
      rw [walk_lookup,
        if_neg (by
          push_neg
          have := PGROUNDDOWN_le addr
          omega),
        PGROUNDDOWN_div, hpte]
      simp only []
      rw [if_neg (by simp [hV, hU]), if_pos hW]
      simp only []
      rw [if_pos (by norm_num)]
    · push_neg
      constructor
      · omega
      · rw [show (foff + n) % U32 = foff + n from Nat.mod_eq_of_lt (by omega)]
        omega
  · intro hbad hoff hn hnov hmax
    rw [writeiU, if_neg ?_, if_neg (by omega)]
    · rw [writeiULoop, dif_pos (by omega)]
      have hm2 : min (n - 0) (BLOCK_SIZE - (foff + 0) % BLOCK_SIZE) ≠ 0 := by
        have hb : BLOCK_SIZE = 4096 := rfl
        rw [hb]
        omega
      rw [show addr + 0 = addr from rfl, hcopyin_bad _ hm2 hbad]
      simp only []
      rw [if_pos (by norm_num)]
    · push_neg
      constructor
      · omega
      · rw [show (foff + n) % U32 = foff + n from Nat.mod_eq_of_lt (by omega)]
        omega

/-- One user page at virtual page 0, mapped readable and user but
NOT writable and NOT COW (flags `V|R|U` = 19). -/
def c8DemoPT : PTab :=
  fun i => if i = 0 then some (PA2PTE 0x80000000 ||| 19) else none

def c8DemoPmm : PmmSt :=
  { bitmap := fun q => decide (q = 0)
    rc := fun q => if q = 0 then 1 else 0
    freeCount := 0 }

/-- A five-byte file. -/
def c8DemoIp : RInode := ⟨5, fun _ => 0⟩

/-- C8, counterexample: the buffer page at address 16 is invalid for the
requested direction of a read syscall (the kernel must write it, but the
page has neither `PTE_W` nor `PTE_COW`), yet `sys_read` at `f->off = 5 =
ip->size` clamps the length to 0, transfers nothing, never touches the
buffer, and returns 0 — not a negative value.  (`argaddr`'s probe checks
the page only for readability.) -/
theorem claim_C8_counterexample :
    (c8DemoPT (16 / PGSIZE)).map
        (fun pte => (pte &&& PTE_V, pte &&& PTE_U, pte &&& PTE_W, pte &&& PTE_COW)) =
      some (1, 16, 0, 0) ∧
    sys_read_inode c8DemoPT c8DemoPmm c8DemoIp 5 16 8 =
      some (c8DemoPT, c8DemoPmm, 0) := by
  constructor
  · decide
  · rw [sys_read_inode, if_pos (by norm_num),
      check_user_range_probe c8DemoPT 16 (by decide),
      curLoop_probe_ok c8DemoPT 16 (PA2PTE 0x80000000 ||| 19) (by decide)
        (by decide) (by decide) (by decide)]
    simp only []
    rw [if_neg (by norm_num)]
    rw [readiU, if_neg (by decide)]
    rw [readiULoop, dif_neg (by decide)]
    rfl

theorem claim_C8_user_buffer_checks_witness :
    sys_read_inode c8DemoPT c8DemoPmm c8DemoIp 3 16 8 =
      some (c8DemoPT, c8DemoPmm, -1) :=
  (claim_C8_user_buffer_checks c8DemoPT c8DemoPmm c8DemoIp 16 8 3
      (by decide)).2.2.1
    (PA2PTE 0x80000000 ||| 19) (by norm_num) (by decide) (by decide) (by decide)
    (by decide) (by decide) (by decide) (by decide) (by decide)

end RiscvOS
